import Mathlib

/-! # grapeTimer scheduler core (timerScheduler.go)

A shallow embedding of the scheduler of `timerScheduler.go`: the package-level
variables become fields of a `World`, the `*GrapeScheduler` object becomes a record,
`container/list` becomes a list of elements that carry their own identity, and every
function of the file becomes a function on these states.  `int64` values are integers
with an explicit two's-complement wrap.
-/

namespace GrapeTimer

/-! ## Constants and machine integers -/

def LoopOnce : Int := 1

def UnlimitLoop : Int := -1

/-- Smallest `int64`. -/
def minInt64 : Int := -9223372036854775808

/-- Largest `int64`. -/
def maxInt64 : Int := 9223372036854775807

/-- Result of an `int64` operation whose mathematical value is `x`: the value is
reduced modulo `2^64` into `[-2^63, 2^63)`, as Go's `+` and `atomic.AddInt64` do. -/
def wrapInt64 (x : Int) : Int :=
  (x + 9223372036854775808) % 18446744073709551616 - 9223372036854775808

/-- The constant `time.Millisecond`, a `time.Duration` counted in nanoseconds. -/
def Millisecond : Int := 1000000

/-! ## Outcomes of a call -/

/-- How a call of one of the functions of the file ends. -/
inductive Outcome (α : Type) where
  /-- The call returns normally. -/
  | ret (a : α)
  /-- A run-time panic leaves the call. -/
  | panic (msg : String)
  /-- The call waits for `listLocker`, which is held, and does not proceed. -/
  | blocked
  deriving Repr, DecidableEq

/-- A call that ends in a run-time panic. -/
def Outcome.aborts {α : Type} : Outcome α → Bool
  | .panic _ => true
  | _ => false

/-! ## The timer objects held by the registry

`GrapeTimer` is declared in another file of the package.  The scheduler only reads
the field `Id` and calls the methods `IsDestroy`, `Stop`, `Execute`, `String`,
`Format` and `toJson`, so the timer type `τ` and these members are parameters of the
embedding. -/

/-- The members of `*GrapeTimer` that `timerScheduler.go` uses, over an arbitrary
timer state `τ`.  `Execute` returns the state it leaves the timer in together with the
panic that leaves the call, if one does; the other methods return normally. -/
structure TimerOps (τ : Type) where
  Id : τ → Int
  IsDestroy : τ → Bool
  Stop : τ → τ
  Execute : τ → τ × Option String
  String_ : τ → String
  Format : τ → String → String
  toJson : τ → String

/-- The timer methods whose calls are recorded. -/
inductive Method where
  | Execute
  | Stop
  | String_
  | Format
  | toJson
  deriving Repr, DecidableEq

/-- One recorded method call: the method and the identity of the list element whose
timer received it. -/
structure Call where
  method : Method
  elem : Nat
  deriving Repr, DecidableEq

/-! ## container/list -/

/-- A `*list.Element`: `key` is the identity of the element (its address), `Value` the
state of the timer its `Value` field points to.  Every element has a timer of its
own. -/
structure Element (τ : Type) where
  key : Nat
  Value : τ
  deriving Repr, DecidableEq

/-- The method `l.Front()`: the first element, or `nil`. -/
def Front {τ : Type} : List (Element τ) → Option Nat
  | [] => none
  | e :: _ => some e.key

/-- The method `e.Next()` for the element with identity `k`: the element that follows it in the
list, or `nil` when it is the last one or is not (any more) an element of the list. -/
def Next {τ : Type} : List (Element τ) → Nat → Option Nat
  | [], _ => none
  | e :: rest, k => if e.key = k then Front rest else Next rest k

/-- The method `l.Remove(e)` for the element with identity `k`: the list without it; a list that
does not hold the element is not modified. -/
def Remove {τ : Type} : List (Element τ) → Nat → List (Element τ)
  | [], _ => []
  | e :: rest, k => if e.key = k then rest else e :: Remove rest k

/-- The field `e.Value` for the element with identity `k`. -/
def valueOf {τ : Type} : List (Element τ) → Nat → Option τ
  | [], _ => none
  | e :: rest, k => if e.key = k then some e.Value else valueOf rest k

/-- The list after the timer held by the element with identity `k` has moved to the
state `v` (the element holds a pointer, the method call mutates the timer in place). -/
def setValue {τ : Type} : List (Element τ) → Nat → τ → List (Element τ)
  | [], _, _ => []
  | e :: rest, k, v =>
    if e.key = k then { e with Value := v } :: rest else e :: setValue rest k v

/-- The identities of the elements of a list, in list order. -/
def keys {τ : Type} (l : List (Element τ)) : List Nat := l.map (fun e => e.key)

/-! ## The scheduler object and the package-level variables -/

/-- The `done chan bool` of a scheduler. -/
inductive Chan where
  | isOpen
  | closed
  deriving Repr, DecidableEq

/-- A `*time.Ticker`: its period in nanoseconds and whether `Stop` was called. -/
structure Ticker where
  d : Int
  stopped : Bool
  deriving Repr, DecidableEq

/-- The struct `GrapeScheduler`.  `listLocker` is `true` while the mutex is held. -/
structure GrapeScheduler (τ : Type) where
  done : Chan
  schedulerTimer : Ticker
  timerContiner : List (Element τ)
  autoId : Int
  listLocker : Bool
  deriving Repr, DecidableEq

/-- The value of the variable `createGuid`: its initial closure, or a function
installed by `SetCreateGUID`, given by the value its `k`-th call returns. -/
inductive Generator where
  | dflt
  | custom (fn : Nat → Int)

/-- The package-level state: `GScheduler` (`none` is `nil`), `createGuid` with the
number of calls a custom generator has served, `CDebugMode`, and the runtime's
`GOMAXPROCS` setting. -/
structure World (τ : Type) where
  GScheduler : Option (GrapeScheduler τ)
  createGuid : Generator
  genCalls : Nat
  CDebugMode : Bool
  GOMAXPROCS : Nat

/-! ## Identity allocator -/

/-- The initial closure of `createGuid`:
`atomic.AddInt64(&GScheduler.autoId, 1)`.  Taking the address of a field of the nil
pointer panics. -/
def defaultCreateGuid {τ : Type} (w : World τ) : Outcome (Int × World τ) :=
  match w.GScheduler with
  | none => .panic "invalid memory address or nil pointer dereference"
  | some c =>
    let v := wrapInt64 (c.autoId + 1)
    .ret (v, { w with GScheduler := some { c with autoId := v } })

/-- A call `createGuid()` of the variable (the `NextId` of the specification). -/
def NextId {τ : Type} (w : World τ) : Outcome (Int × World τ) :=
  match w.createGuid with
  | .dflt => defaultCreateGuid w
  | .custom fn => .ret (fn w.genCalls, { w with genCalls := w.genCalls + 1 })

/-- The values of `n` successive calls `createGuid()`, in call order. -/
def NextIds {τ : Type} : Nat → World τ → Outcome (List Int × World τ)
  | 0, w => .ret ([], w)
  | n + 1, w =>
    match NextId w with
    | .ret (v, w1) =>
      match NextIds n w1 with
      | .ret (vs, w2) => .ret (v :: vs, w2)
      | .panic msg => .panic msg
      | .blocked => .blocked
    | .panic msg => .panic msg
    | .blocked => .blocked

def PeekNextId {τ : Type} (w : World τ) : Outcome (Int × World τ) :=
  match w.GScheduler with
  | none => .panic "Scheduler must init..."
  | some c => .ret (wrapInt64 (c.autoId + 1), w)

def SetCreateGUID {τ : Type} (fn : Nat → Int) (w : World τ) : World τ :=
  { w with createGuid := .custom fn, genCalls := 0 }

/-- The function `SetGuidSeed`: the returned `error` (`none` is `nil`) and the state afterwards. -/
def SetGuidSeed {τ : Type} (seed : Int) (w : World τ) : Option String × World τ :=
  match w.GScheduler with
  | none => (some "Scheduler must init...", w)
  | some c => (none, { w with GScheduler := some { c with autoId := seed } })

/-! ## Initialization -/

/-- The call `time.NewTicker(d)`, which panics for a non-positive period. -/
def NewTicker (d : Int) : Outcome Ticker :=
  if d ≤ 0 then .panic "non-positive interval for NewTicker"
  else .ret { d := d, stopped := false }

/-- The function `InitGrapeScheduler(t, ars)`; `numCPU` is the value of `runtime.NumCPU()`.  The
driver goroutine started by the last statement runs `procScheduler`, whose ticker
branch is `procSchedulerTick` below. -/
def InitGrapeScheduler {τ : Type} (t : Int) (ars : Bool) (numCPU : Nat) (w : World τ) :
    Outcome (World τ) :=
  let w1 := if ars then { w with GOMAXPROCS := numCPU } else w
  let chkTick := if t ≤ Millisecond * 100 then Millisecond * 100 else t
  match NewTicker chkTick with
  | .ret tk =>
    .ret { w1 with
      GScheduler := some
        { done := .isOpen, timerContiner := [], autoId := 1000, schedulerTimer := tk,
          listLocker := false } }
  | .panic msg => .panic msg
  | .blocked => .blocked

/-! ## Registry operations

Every method takes `listLocker` first and releases it when it returns.  A call that
finds the mutex held waits; a call that finds it free runs its critical section. -/

/-- What a method of the scheduler returns: its value, the scheduler afterwards and
the timer methods it called, in call order. -/
structure Res (τ α : Type) where
  val : α
  sched : GrapeScheduler τ
  calls : List Call

/-- The loop of `StopTimer`: the list afterwards and the recorded calls. -/
def stopScan {τ : Type} (ops : TimerOps τ) (Id : Int) :
    List (Element τ) → List (Element τ) × List Call
  | [] => ([], [])
  | e :: rest =>
    if ops.IsDestroy e.Value then
      let r := stopScan ops Id rest
      (e :: r.1, r.2)
    else if ops.Id e.Value = Id then
      ({ e with Value := ops.Stop e.Value } :: rest, [⟨.Stop, e.key⟩])
    else
      let r := stopScan ops Id rest
      (e :: r.1, r.2)

def StopTimer {τ : Type} (ops : TimerOps τ) (c : GrapeScheduler τ) (Id : Int) :
    Outcome (Res τ Unit) :=
  if c.listLocker then .blocked
  else
    let c1 := { c with listLocker := true }
    let r := stopScan ops Id c1.timerContiner
    .ret ⟨(), { c1 with timerContiner := r.1, listLocker := false }, r.2⟩

/-- The assignment `temp[k] = v` on a `map[int64]string`, kept as a list of pairs with
one pair per key. -/
def mapSet (m : List (Int × String)) (k : Int) (v : String) : List (Int × String) :=
  (k, v) :: m.filter (fun p => decide (p.1 ≠ k))

/-- The index expression `temp[k]` with its presence flag: the value stored under the
key, if the map has the key. -/
def mapGet : List (Int × String) → Int → Option String
  | [], _ => none
  | p :: rest, k => if p.1 = k then some p.2 else mapGet rest k

/-- The loop of `List`, from the map built so far. -/
def listScan {τ : Type} (ops : TimerOps τ) :
    List (Element τ) → List (Int × String) → List (Int × String) × List Call
  | [], temp => (temp, [])
  | e :: rest, temp =>
    if ops.IsDestroy e.Value then listScan ops rest temp
    else
      let r := listScan ops rest (mapSet temp (ops.Id e.Value) (ops.String_ e.Value))
      (r.1, ⟨.String_, e.key⟩ :: r.2)

def List_ {τ : Type} (ops : TimerOps τ) (c : GrapeScheduler τ) :
    Outcome (Res τ (List (Int × String))) :=
  if c.listLocker then .blocked
  else
    let c1 := { c with listLocker := true }
    let r := listScan ops c1.timerContiner []
    .ret ⟨r.1, { c1 with listLocker := false }, r.2⟩

/-- The loop of `String`. -/
def stringScan {τ : Type} (ops : TimerOps τ) (id : Int) :
    List (Element τ) → String × List Call
  | [] => ("", [])
  | e :: rest =>
    if ops.IsDestroy e.Value then stringScan ops id rest
    else if ops.Id e.Value = id then (ops.String_ e.Value, [⟨.String_, e.key⟩])
    else stringScan ops id rest

def String_ {τ : Type} (ops : TimerOps τ) (c : GrapeScheduler τ) (id : Int) :
    Outcome (Res τ String) :=
  if c.listLocker then .blocked
  else
    let c1 := { c with listLocker := true }
    let r := stringScan ops id c1.timerContiner
    .ret ⟨r.1, { c1 with listLocker := false }, r.2⟩

/-- The loop of `Format`. -/
def formatScan {τ : Type} (ops : TimerOps τ) (id : Int) (layout : String) :
    List (Element τ) → String × List Call
  | [] => ("", [])
  | e :: rest =>
    if ops.IsDestroy e.Value then formatScan ops id layout rest
    else if ops.Id e.Value = id then (ops.Format e.Value layout, [⟨.Format, e.key⟩])
    else formatScan ops id layout rest

def Format {τ : Type} (ops : TimerOps τ) (c : GrapeScheduler τ) (id : Int)
    (layout : String) : Outcome (Res τ String) :=
  if c.listLocker then .blocked
  else
    let c1 := { c with listLocker := true }
    let r := formatScan ops id layout c1.timerContiner
    .ret ⟨r.1, { c1 with listLocker := false }, r.2⟩

/-- The loop of `ToJson`. -/
def jsonScan {τ : Type} (ops : TimerOps τ) (id : Int) :
    List (Element τ) → String × List Call
  | [] => ("", [])
  | e :: rest =>
    if ops.IsDestroy e.Value then jsonScan ops id rest
    else if ops.Id e.Value = id then (ops.toJson e.Value, [⟨.toJson, e.key⟩])
    else jsonScan ops id rest

def ToJson {τ : Type} (ops : TimerOps τ) (c : GrapeScheduler τ) (id : Int) :
    Outcome (Res τ String) :=
  if c.listLocker then .blocked
  else
    let c1 := { c with listLocker := true }
    let r := jsonScan ops id c1.timerContiner
    .ret ⟨r.1, { c1 with listLocker := false }, r.2⟩

/-- The call `append(s, x)` on a `[]string`; `none` is the nil slice, `some []` an empty
slice that is not nil. -/
def goAppend (s : Option (List String)) (x : String) : Option (List String) :=
  match s with
  | none => some [x]
  | some xs => some (xs ++ [x])

/-- The loop of `SaveAll`, from the slice built so far. -/
def saveScan {τ : Type} (ops : TimerOps τ) :
    List (Element τ) → Option (List String) → Option (List String) × List Call
  | [], jsonArr => (jsonArr, [])
  | e :: rest, jsonArr =>
    if ops.IsDestroy e.Value then saveScan ops rest jsonArr
    else
      let r := saveScan ops rest (goAppend jsonArr (ops.toJson e.Value))
      (r.1, ⟨.toJson, e.key⟩ :: r.2)

def SaveAll {τ : Type} (ops : TimerOps τ) (c : GrapeScheduler τ) :
    Outcome (Res τ (Option (List String))) :=
  if c.listLocker then .blocked
  else
    let c1 := { c with listLocker := true }
    let r := saveScan ops c1.timerContiner (some [])
    .ret ⟨r.1, { c1 with listLocker := false }, r.2⟩

/-! ## The tick driver -/

/-- The lines `procScheduler` writes with `log.Printf` (without their time stamp). -/
inductive LogLine where
  | tickOnce
  | removeId (id : Int)
  | tickOnceEnd
  deriving Repr, DecidableEq

/-- How a pulse stops: the traversal ran to its end, a panic left an `Execute` call,
the step budget of the model ran out, or the pulse found `listLocker` held and waits
for it. -/
inductive PassEnd where
  | finished
  | fault (msg : String)
  | unfinished
  | blocked
  deriving Repr, DecidableEq

/-- The state of the traversal of one pulse when it stops. -/
structure PassState (τ : Type) where
  timerContiner : List (Element τ)
  calls : List Call
  logs : List LogLine
  status : PassEnd

/-- The traversal loop of the ticker branch,
`for e := Front(); e != nil; e = nextE`, run for at most `fuel` iterations from the
cursor `e` (`none` is `nil`).  `nextE` is read before `Execute` is called and before
the element is removed. -/
def tickLoop {τ : Type} (ops : TimerOps τ) (dbg : Bool) :
    Nat → Option Nat → List (Element τ) → List Call → List LogLine → PassState τ
  | _, none, l, calls, logs => ⟨l, calls, logs, .finished⟩
  | 0, some _, l, calls, logs => ⟨l, calls, logs, .unfinished⟩
  | fuel + 1, some e, l, calls, logs =>
    let nextE := Next l e
    match valueOf l e with
    | none => ⟨l, calls, logs, .unfinished⟩
    | some vnTimer =>
      let x := ops.Execute vnTimer
      let l1 := setValue l e x.1
      let calls1 := calls ++ [⟨.Execute, e⟩]
      match x.2 with
      | some msg => ⟨l1, calls1, logs, .fault msg⟩
      | none =>
        if ops.IsDestroy x.1 then
          tickLoop ops dbg fuel nextE (Remove l1 e) calls1
            (if dbg then logs ++ [.removeId (ops.Id x.1)] else logs)
        else tickLoop ops dbg fuel nextE l1 calls1 logs

/-- What one pulse leaves behind: the scheduler, the recorded calls, the log lines and
how the pulse stopped. -/
structure PulseResult (τ : Type) where
  sched : GrapeScheduler τ
  calls : List Call
  logs : List LogLine
  status : PassEnd

/-- One pulse: the body of `case <-c.schedulerTimer.C:` in `procScheduler`.  The
mutex is released by the statement after the loop, so a panic that leaves the loop
leaves it held. -/
def procSchedulerTick {τ : Type} (ops : TimerOps τ) (CDebugMode : Bool)
    (c : GrapeScheduler τ) : PulseResult τ :=
  if c.listLocker then ⟨c, [], [], .blocked⟩
  else
    let c1 := { c with listLocker := true }
    let logs0 := if CDebugMode then [LogLine.tickOnce] else []
    let p := tickLoop ops CDebugMode c1.timerContiner.length (Front c1.timerContiner)
      c1.timerContiner [] logs0
    match p.status with
    | .finished =>
      ⟨{ c1 with timerContiner := p.timerContiner, listLocker := false }, p.calls,
        if CDebugMode then p.logs ++ [.tickOnceEnd] else p.logs, .finished⟩
    | st => ⟨{ c1 with timerContiner := p.timerContiner }, p.calls, p.logs, st⟩

/-! ## A sample timer for concrete runs -/

/-- A timer with a loop budget, for running the scheduler on concrete registries: a
positive budget is decremented by every execution and destroys the timer when it
reaches zero, a negative budget is unlimited, `Stop` destroys the timer, and a
destroyed timer is inert. -/
structure DemoTimer where
  Id : Int
  loops : Int
  destroyed : Bool
  fired : Nat
  deriving Repr, DecidableEq

def demoExecute (t : DemoTimer) : DemoTimer × Option String :=
  if t.destroyed then (t, none)
  else if t.loops < 0 then ({ t with fired := t.fired + 1 }, none)
  else
    ({ t with loops := t.loops - 1, fired := t.fired + 1,
              destroyed := decide (t.loops - 1 ≤ 0) }, none)

def demoOps : TimerOps DemoTimer where
  Id := fun t => t.Id
  IsDestroy := fun t => t.destroyed
  Stop := fun t => { t with destroyed := true }
  Execute := demoExecute
  String_ := fun t => if t.destroyed then "destroyed" else "pending"
  Format := fun t layout => if t.destroyed then "destroyed" else layout
  toJson := fun t => if t.destroyed then "null" else "{}"

/-- A scheduler as `InitGrapeScheduler` creates it, with the given registry and
counter. -/
def demoScheduler (l : List (Element DemoTimer)) (autoId : Int) :
    GrapeScheduler DemoTimer :=
  { done := .isOpen, schedulerTimer := { d := 500 * Millisecond, stopped := false },
    timerContiner := l, autoId := autoId, listLocker := false }

/-- The package state before `InitGrapeScheduler` was ever called. -/
def uninitWorld : World DemoTimer :=
  { GScheduler := none, createGuid := .dflt, genCalls := 0, CDebugMode := true,
    GOMAXPROCS := 1 }

/-- An initialized package state with the default generator. -/
def demoWorld (l : List (Element DemoTimer)) (autoId : Int) : World DemoTimer :=
  { GScheduler := some (demoScheduler l autoId), createGuid := .dflt, genCalls := 0,
    CDebugMode := true, GOMAXPROCS := 1 }

/-- A registry of `n` sample timers with the ids 1001, 1002, ... in which every other
timer (the first, the third, ...) has the budget one and so destroys itself on its
first execution, while the others are unlimited. -/
def demoRegistry (n : Nat) : List (Element DemoTimer) :=
  (List.range n).map (fun i =>
    { key := i,
      Value := { Id := 1001 + (i : Int), loops := if i % 2 = 0 then 1 else -1,
                 destroyed := false, fired := 0 } })

/-- The execution of a sample timer whose payload raises a fault when the timer has
the id 1002. -/
def faultyExecute (t : DemoTimer) : DemoTimer × Option String :=
  if t.Id = 1002 then ({ t with fired := t.fired + 1 }, some "payload fault")
  else demoExecute t

/-- The sample timer methods with the faulting payload. -/
def faultyOps : TimerOps DemoTimer :=
  { demoOps with Execute := faultyExecute }

/-! ## The pulse as the specification words it -/

/-- One full registry pass as sections 4.3 and 8 of the specification describe it:
every entry, in insertion order, is executed once, and an entry that reports
destroyed after its execution is dropped while the others stay in place; the pass
stops at an execution that a panic leaves.  This is the reference the traversal loop
of the code, `tickLoop`, is compared with. -/
def passBySpec {τ : Type} (ops : TimerOps τ) (dbg : Bool) : List (Element τ) → PassState τ
  | [] => ⟨[], [], [], .finished⟩
  | e :: rest =>
    match (ops.Execute e.Value).2 with
    | some msg =>
      ⟨{ e with Value := (ops.Execute e.Value).1 } :: rest, [⟨.Execute, e.key⟩], [],
        .fault msg⟩
    | none =>
      let r := passBySpec ops dbg rest
      if ops.IsDestroy (ops.Execute e.Value).1 then
        ⟨r.timerContiner, ⟨.Execute, e.key⟩ :: r.calls,
          (if dbg then [LogLine.removeId (ops.Id (ops.Execute e.Value).1)] else []) ++ r.logs,
          r.status⟩
      else
        ⟨{ e with Value := (ops.Execute e.Value).1 } :: r.timerContiner,
          ⟨.Execute, e.key⟩ :: r.calls, r.logs, r.status⟩

/-- The identifiers of the entries of a registry, in traversal order. -/
def ids {τ : Type} (ops : TimerOps τ) (l : List (Element τ)) : List Int :=
  l.map (fun e => ops.Id e.Value)

/-- The non-destroyed entries of a registry, in traversal order. -/
def live {τ : Type} (ops : TimerOps τ) (l : List (Element τ)) : List (Element τ) :=
  l.filter (fun e => !ops.IsDestroy e.Value)

/-- The last non-destroyed entry of a registry that carries the identifier `k`. -/
def lastLive {τ : Type} (ops : TimerOps τ) (k : Int) : List (Element τ) → Option (Element τ)
  | [] => none
  | e :: rest =>
    match lastLive ops k rest with
    | some x => some x
    | none => if ops.IsDestroy e.Value = false ∧ ops.Id e.Value = k then some e else none

/-! ## The fault boundary of an execution, from the specification -/

/-- Modelled from the spec: the fault boundary of `GrapeTimer.Execute`, a method declared
in a file of the package that is not under `src/`.  Section 4.3: a payload invocation
that raises an unrecoverable fault is caught at the boundary of the per-entry
execute-if-due call and routed to the recovery hook, which has no return value, and
control returns to the driver.  `run` is the execution without the boundary: the
state it leaves the timer in and the fault it raises, if it raises one. -/
def executeBySpec {τ : Type} (run : τ → τ × Option String) (t : τ) : τ × Option String :=
  ((run t).1, none)

/-- Modelled from the spec: the failure descriptions that one guarded execution of a
timer in the state `t` hands to `RecoverPanic`, which `timerScheduler.go` declares and
never calls itself. -/
def recoveredBySpec {τ : Type} (run : τ → τ × Option String) (t : τ) : List String :=
  match (run t).2 with
  | some err => [err]
  | none => []

/-- The timer methods with `Execute` put behind the fault boundary. -/
def guardedOps {τ : Type} (ops : TimerOps τ) : TimerOps τ :=
  { ops with Execute := executeBySpec ops.Execute }

/-- The failure descriptions `RecoverPanic` receives while the recorded calls are
made on the registry `l`, in call order: those of each recorded `Execute` call, on
the state the timer of that element has in `l`. -/
def recoveredInPulse {τ : Type} (run : τ → τ × Option String) (l : List (Element τ)) :
    List Call → List String
  | [] => []
  | call :: rest =>
    (match call.method, valueOf l call.elem with
      | .Execute, some t => recoveredBySpec run t
      | _, _ => []) ++ recoveredInPulse run l rest

/-- The failure descriptions of the executions of all entries, in traversal order. -/
def faultsBySpec {τ : Type} (run : τ → τ × Option String) : List (Element τ) → List String
  | [] => []
  | e :: rest => recoveredBySpec run e.Value ++ faultsBySpec run rest

/-! ## The driver goroutine -/

/-- The driver states of section 4.3, and `Waiting` for a driver that stands in
`listLocker.Lock()`. -/
inductive DriverState where
  | Idle
  | Running
  | Stopped
  | Waiting
  deriving Repr, DecidableEq

/-- What the `select` of `procScheduler` receives: a tick of `schedulerTimer.C`, or a
completed receive on `done` (a value was sent, or the channel is closed). -/
inductive Received where
  | tick
  | done
  deriving Repr, DecidableEq

/-- How a caller delivers the shutdown signal on `done`. -/
inductive Signal where
  | send
  | close
  deriving Repr, DecidableEq

/-- The builtin `close(ch)`: the channel afterwards and the panic it raises on a
channel that is already closed. -/
def closeChan : Chan → Chan × Option String
  | .isOpen => (.closed, none)
  | .closed => (.closed, some "close of closed channel")

/-- The scheduler after a caller delivered the signal: a sent value is handed to the
receiving `select` and leaves the channel open, `close(c.done)` closes it. -/
def signalDone {τ : Type} (sig : Signal) (c : GrapeScheduler τ) : GrapeScheduler τ :=
  match sig with
  | .send => c
  | .close => { c with done := (closeChan c.done).1 }

/-- The goroutine that runs `procScheduler`: the scheduler it works on, its state, the
number of pulses it has processed, the calls it has recorded and the panic that ended
it, if one did. -/
structure Driver (τ : Type) where
  sched : GrapeScheduler τ
  state : DriverState
  pulses : Nat
  calls : List Call
  fault : Option String

/-- The driver `go GScheduler.procScheduler()` starts. -/
def startDriver {τ : Type} (c : GrapeScheduler τ) : Driver τ :=
  { sched := c, state := .Running, pulses := 0, calls := [], fault := none }

/-- The deferred function of `procScheduler`, run when the loop is left, with the
panic that is leaving it, if any: `close(c.done)` and then `c.schedulerTimer.Stop()`.
A panic of `close` leaves the deferred function before the ticker is stopped. -/
def procSchedulerExit {τ : Type} (d : Driver τ) (pending : Option String) : Driver τ :=
  match (closeChan d.sched.done).2 with
  | none =>
    { d with
      sched :=
        { d.sched with
          done := (closeChan d.sched.done).1,
          schedulerTimer := { d.sched.schedulerTimer with stopped := true } },
      state := .Stopped, fault := pending }
  | some msg => { d with state := .Stopped, fault := some msg }

/-- One turn of the `for { select { ... } }` loop of `procScheduler`.  A driver that
is not running takes no turn. -/
def procSchedulerStep {τ : Type} (ops : TimerOps τ) (CDebugMode : Bool) (r : Received)
    (d : Driver τ) : Driver τ :=
  match d.state with
  | .Running =>
    match r with
    | .tick =>
      let p := procSchedulerTick ops CDebugMode d.sched
      match p.status with
      | .finished =>
        { d with sched := p.sched, pulses := d.pulses + 1, calls := d.calls ++ p.calls }
      | .fault msg =>
        procSchedulerExit
          { d with sched := p.sched, pulses := d.pulses + 1, calls := d.calls ++ p.calls }
          (some msg)
      | _ => { d with sched := p.sched, calls := d.calls ++ p.calls, state := .Waiting }
    | .done => procSchedulerExit d none
  | _ => d

/-- The driver after the `select` received the given sequence. -/
def procSchedulerRun {τ : Type} (ops : TimerOps τ) (CDebugMode : Bool) :
    List Received → Driver τ → Driver τ
  | [], d => d
  | r :: rest, d => procSchedulerRun ops CDebugMode rest (procSchedulerStep ops CDebugMode r d)

/-! ## Machine-integer lemmas -/

theorem wrapInt64_of_inRange (x : Int) (hlo : minInt64 ≤ x) (hhi : x ≤ maxInt64) :
    wrapInt64 x = x := by
  unfold wrapInt64
  unfold minInt64 at hlo
  unfold maxInt64 at hhi
  omega

theorem wrapInt64_add_left (x y : Int) : wrapInt64 (wrapInt64 x + y) = wrapInt64 (x + y) := by
  unfold wrapInt64
  omega

theorem wrapInt64_inj_of_lt (a : Int) (i j : Nat) (hi : i < 18446744073709551616)
    (hj : j < 18446744073709551616)
    (h : wrapInt64 (a + 1 + (i : Int)) = wrapInt64 (a + 1 + (j : Int))) : i = j := by
  unfold wrapInt64 at h
  omega

/-! ## Identity allocator: successive allocations -/

/-- With the default generator on an initialized scheduler, `n` successive allocations
return, and the `k`-th value (from zero) is the wrapped `autoId + 1 + k`. -/
theorem NextIds_default {τ : Type} :
    ∀ (n : Nat) (w : World τ) (c : GrapeScheduler τ),
      w.GScheduler = some c → w.createGuid = Generator.dflt →
      ∃ w', NextIds n w
        = .ret ((List.range n).map (fun k : Nat => wrapInt64 (c.autoId + 1 + (k : Int))), w')
  | 0, w, _, _, _ => ⟨w, rfl⟩
  | n + 1, w, c, hinit, hgen => by
    have hstep : NextId w
        = .ret (wrapInt64 (c.autoId + 1),
            { w with GScheduler := some { c with autoId := wrapInt64 (c.autoId + 1) } }) := by
      simp [NextId, hgen, defaultCreateGuid, hinit]
    obtain ⟨w', hw'⟩ := NextIds_default n
      { w with GScheduler := some { c with autoId := wrapInt64 (c.autoId + 1) } }
      { c with autoId := wrapInt64 (c.autoId + 1) } rfl hgen
    refine ⟨w', ?_⟩
    simp only [NextIds, hstep, hw', List.range_succ_eq_map, List.map_cons, List.map_map]
    congr 2
    simp only [Nat.cast_zero, add_zero, List.cons.injEq, true_and]
    apply List.map_congr_left
    intro k _
    simp only [Function.comp]
    rw [add_assoc (wrapInt64 (c.autoId + 1)), wrapInt64_add_left]
    congr 1
    push_cast
    ring

/-! ## Claims on the identity allocator -/

/-- C1: on an initialized scheduler with the default generator, for every seed `s`
with `s + 3` inside `int64`, `SetGuidSeed(s)` succeeds and the next three allocations
return `s + 1`, `s + 2`, `s + 3`, in that order. -/
theorem SetGuidSeed_then_three_allocations {τ : Type} (w : World τ) (c : GrapeScheduler τ)
    (s : Int) (hinit : w.GScheduler = some c) (hgen : w.createGuid = Generator.dflt)
    (hlo : minInt64 ≤ s) (hhi : s + 3 ≤ maxInt64) :
    (SetGuidSeed s w).1 = none ∧
      ∃ w', NextIds 3 (SetGuidSeed s w).2 = .ret ([s + 1, s + 2, s + 3], w') := by
  have hseed : SetGuidSeed s w
      = (none, { w with GScheduler := some { c with autoId := s } }) := by
    simp [SetGuidSeed, hinit]
  obtain ⟨w', hw'⟩ := NextIds_default 3
    { w with GScheduler := some { c with autoId := s } } { c with autoId := s } rfl hgen
  refine ⟨by rw [hseed], w', ?_⟩
  rw [hseed, hw']
  have h1 : wrapInt64 (s + 1) = s + 1 :=
    wrapInt64_of_inRange _ (by omega) (by omega)
  have h2 : wrapInt64 (s + 1 + 1) = s + 2 := by
    rw [wrapInt64_of_inRange _ (by omega) (by omega)]; ring
  have h3 : wrapInt64 (s + 1 + 2) = s + 3 := by
    rw [wrapInt64_of_inRange _ (by omega) (by omega)]; ring
  simp [List.range_succ, h1, h2, h3]

/-- C1, the scenario of the specification: after `SetGuidSeed(5000)` the next three
allocations are 5001, 5002, 5003. -/
theorem SetGuidSeed_then_three_allocations_witness :
    (SetGuidSeed 5000 (demoWorld [] 1000)).1 = none ∧
      ∃ w', NextIds 3 (SetGuidSeed 5000 (demoWorld [] 1000)).2
        = .ret ([5000 + 1, 5000 + 2, 5000 + 3], w') :=
  SetGuidSeed_then_three_allocations (demoWorld [] 1000) (demoScheduler [] 1000) 5000
    rfl rfl (by decide) (by decide)

/-- C2, as stated, fails: from the counter `maxInt64 - 1` two successive allocations
return `maxInt64` and then `minInt64`, which is not an increase; and among
`2^64 + 1` successive allocations two are equal. -/
theorem NextIds_not_increasing_at_overflow :
    (∃ w', NextIds 2 (demoWorld [] (maxInt64 - 1)) = .ret ([maxInt64, minInt64], w') ∧
      ¬ List.Pairwise (fun a b : Int => a < b) [maxInt64, minInt64]) ∧
    (∃ vs w', NextIds 18446744073709551617 (demoWorld [] 1000) = .ret (vs, w') ∧
      ¬ vs.Nodup) := by
  refine ⟨⟨_, rfl, by decide⟩, ?_⟩
  obtain ⟨w', hw'⟩ := NextIds_default 18446744073709551617 (demoWorld [] 1000)
    (demoScheduler [] 1000) rfl rfl
  refine ⟨_, w', hw', ?_⟩
  intro hnd
  have h0 : (0 : Nat) ∈ List.range 18446744073709551617 := List.mem_range.mpr (by omega)
  have h1 : (18446744073709551616 : Nat) ∈ List.range 18446744073709551617 :=
    List.mem_range.mpr (by omega)
  have heq : wrapInt64 ((demoScheduler [] 1000).autoId + 1 + ((0 : Nat) : Int))
      = wrapInt64 ((demoScheduler [] 1000).autoId + 1 + ((18446744073709551616 : Nat) : Int)) := by
    decide
  have := List.inj_on_of_nodup_map hnd h0 h1 heq
  omega

/-- C2, amended: on an initialized scheduler with the default generator, `N` successive
allocations return, the `k`-th value being the wrapped `autoId + 1 + k`; the values are
pairwise distinct when `N ≤ 2^64`, and they are `autoId + 1, ..., autoId + N`, strictly
increasing, when `autoId + N` does not exceed the largest `int64`. -/
theorem NextIds_distinct_and_increasing {τ : Type} (N : Nat) (w : World τ)
    (c : GrapeScheduler τ) (hinit : w.GScheduler = some c)
    (hgen : w.createGuid = Generator.dflt) (hlo : minInt64 ≤ c.autoId) :
    ∃ vs w', NextIds N w = .ret (vs, w') ∧
      vs = (List.range N).map (fun k : Nat => wrapInt64 (c.autoId + 1 + (k : Int))) ∧
      (N ≤ 18446744073709551616 → vs.Nodup) ∧
      (c.autoId + (N : Int) ≤ maxInt64 →
        vs = (List.range N).map (fun k : Nat => c.autoId + 1 + (k : Int)) ∧
        vs.Pairwise (fun a b => a < b)) := by
  obtain ⟨w', hw'⟩ := NextIds_default N w c hinit hgen
  refine ⟨_, w', hw', rfl, ?_, ?_⟩
  · intro hN
    apply List.Nodup.map_on _ (List.nodup_range N)
    intro i hi j hj hij
    rw [List.mem_range] at hi hj
    exact wrapInt64_inj_of_lt c.autoId i j (by omega) (by omega) hij
  · intro hN
    have hvals : (List.range N).map (fun k : Nat => wrapInt64 (c.autoId + 1 + (k : Int)))
        = (List.range N).map (fun k : Nat => c.autoId + 1 + (k : Int)) := by
      apply List.map_congr_left
      intro k hk
      rw [List.mem_range] at hk
      exact wrapInt64_of_inRange _ (by omega) (by omega)
    refine ⟨hvals, ?_⟩
    rw [hvals, List.pairwise_map]
    apply List.Pairwise.imp _ (List.pairwise_lt_range N)
    intro i j hij
    omega

/-- C2 amended, at the default seed: ten allocations from the counter 1000. -/
theorem NextIds_distinct_and_increasing_witness :
    ∃ vs w', NextIds 10 (demoWorld [] 1000) = .ret (vs, w') ∧
      vs = (List.range 10).map
        (fun k : Nat => wrapInt64 ((demoScheduler [] 1000).autoId + 1 + (k : Int))) ∧
      (10 ≤ 18446744073709551616 → vs.Nodup) ∧
      ((demoScheduler [] 1000).autoId + ((10 : Nat) : Int) ≤ maxInt64 →
        vs = (List.range 10).map
          (fun k : Nat => (demoScheduler [] 1000).autoId + 1 + (k : Int)) ∧
        vs.Pairwise (fun a b => a < b)) :=
  NextIds_distinct_and_increasing 10 (demoWorld [] 1000) (demoScheduler [] 1000) rfl rfl
    (by decide)

/-- C3: on an initialized scheduler with the default generator, `PeekNextId` returns
the value the next allocation returns and leaves the whole state as it was, so that a
second `PeekNextId` returns the same value. -/
theorem PeekNextId_eq_next_allocation {τ : Type} (w : World τ) (c : GrapeScheduler τ)
    (hinit : w.GScheduler = some c) (hgen : w.createGuid = Generator.dflt) :
    ∃ v, PeekNextId w = .ret (v, w) ∧
      (∃ w', NextId w = .ret (v, w')) ∧
      (∀ w1, PeekNextId w = .ret (v, w1) →
        w1.GScheduler = some c ∧ PeekNextId w1 = .ret (v, w1)) := by
  have hpeek : PeekNextId w = .ret (wrapInt64 (c.autoId + 1), w) := by
    simp [PeekNextId, hinit]
  refine ⟨wrapInt64 (c.autoId + 1), hpeek,
    ⟨{ w with GScheduler := some { c with autoId := wrapInt64 (c.autoId + 1) } }, ?_⟩, ?_⟩
  · simp only [NextId, hgen, defaultCreateGuid, hinit]
  · intro w1 h1
    rw [hpeek] at h1
    injection h1 with h1
    injection h1 with _ h1
    subst h1
    exact ⟨hinit, hpeek⟩

/-- C3 at the default seed: peeking and allocating both give 1001. -/
theorem PeekNextId_eq_next_allocation_witness :
    ∃ v, PeekNextId (demoWorld [] 1000) = .ret (v, demoWorld [] 1000) ∧
      (∃ w', NextId (demoWorld [] 1000) = .ret (v, w')) ∧
      (∀ w1, PeekNextId (demoWorld [] 1000) = .ret (v, w1) →
        w1.GScheduler = some (demoScheduler [] 1000) ∧ PeekNextId w1 = .ret (v, w1)) :=
  PeekNextId_eq_next_allocation (demoWorld [] 1000) (demoScheduler [] 1000) rfl rfl

/-- C4: `SetGuidSeed(seed)` returns an error exactly when `GScheduler` is nil; on error
the state is unchanged, and on success the counter is `seed` and nothing else has
changed. -/
theorem SetGuidSeed_error_iff_uninitialized {τ : Type} (w : World τ) (seed : Int) :
    ((SetGuidSeed seed w).1 ≠ none ↔ w.GScheduler = none) ∧
      (w.GScheduler = none → (SetGuidSeed seed w).2 = w) ∧
      (∀ c, w.GScheduler = some c →
        (SetGuidSeed seed w).1 = none ∧
        (SetGuidSeed seed w).2 = { w with GScheduler := some { c with autoId := seed } }) := by
  cases h : w.GScheduler with
  | none => simp [SetGuidSeed, h]
  | some c => simp [SetGuidSeed, h]

/-- C5, as stated, fails: before initialization an allocation through the default
generator does not return at all, it panics on the nil scheduler. -/
theorem NextId_aborts_when_uninitialized :
    (NextId uninitWorld).aborts = true ∧ ¬ ∃ r, NextId uninitWorld = .ret r := by
  refine ⟨rfl, ?_⟩
  rintro ⟨r, hr⟩
  simp [NextId, uninitWorld, defaultCreateGuid] at hr

/-- C5, amended: before initialization `SetGuidSeed` returns an error and leaves the
state as it was, while `PeekNextId` and an allocation through the default generator
both abort with a panic. -/
theorem uninitialized_seed_error_peek_and_allocate_abort {τ : Type} (w : World τ)
    (seed : Int) (hnil : w.GScheduler = none) (hgen : w.createGuid = Generator.dflt) :
    (∃ msg, SetGuidSeed seed w = (some msg, w)) ∧
      (PeekNextId w).aborts = true ∧ (NextId w).aborts = true := by
  refine ⟨⟨"Scheduler must init...", ?_⟩, ?_, ?_⟩
  · simp only [SetGuidSeed, hnil]
  · simp [PeekNextId, hnil, Outcome.aborts]
  · simp [NextId, hgen, defaultCreateGuid, hnil, Outcome.aborts]

/-- C5 amended, on the package state before any initialization. -/
theorem uninitialized_seed_error_peek_and_allocate_abort_witness :
    (∃ msg, SetGuidSeed 5000 uninitWorld = (some msg, uninitWorld)) ∧
      (PeekNextId uninitWorld).aborts = true ∧ (NextId uninitWorld).aborts = true :=
  uninitialized_seed_error_peek_and_allocate_abort uninitWorld 5000 rfl rfl

/-! ## Claim on initialization -/

/-- C6: for every requested interval `t`, `InitGrapeScheduler` returns with a scheduler
whose ticker has the period `max t (100 ms)`: exactly 100 ms for every `t` below
100 ms, zero and negative ones included, and `t` itself from 100 ms on. -/
theorem InitGrapeScheduler_interval_floor {τ : Type} (t : Int) (ars : Bool) (numCPU : Nat)
    (w : World τ) :
    ∃ w' c, InitGrapeScheduler t ars numCPU w = .ret w' ∧ w'.GScheduler = some c ∧
      c.schedulerTimer.d = max t (100 * Millisecond) ∧
      (t < 100 * Millisecond → c.schedulerTimer.d = 100 * Millisecond) ∧
      (100 * Millisecond ≤ t → c.schedulerTimer.d = t) := by
  have hd : ¬ ((if t ≤ Millisecond * 100 then Millisecond * 100 else t) ≤ 0) := by
    simp only [Millisecond]
    split <;> omega
  unfold InitGrapeScheduler NewTicker
  simp only [hd, if_false]
  refine ⟨_, _, rfl, rfl, ?_, ?_, ?_⟩
  · simp only [Millisecond]
    split <;> omega
  · intro h
    simp only [Millisecond] at h ⊢
    split <;> omega
  · intro h
    simp only [Millisecond] at h ⊢
    split <;> omega

/-! ## Lemmas on the registry scans -/

theorem unlock_eq_self {τ : Type} (c : GrapeScheduler τ) (h : c.listLocker = false) :
    ({ c with listLocker := false } : GrapeScheduler τ) = c := by
  cases c
  simp_all

theorem stringScan_absent {τ : Type} (ops : TimerOps τ) (id : Int) :
    ∀ l : List (Element τ),
      (∀ e ∈ l, ops.IsDestroy e.Value = false → ops.Id e.Value ≠ id) →
      stringScan ops id l = ("", [])
  | [], _ => rfl
  | e :: rest, h => by
    have ih := stringScan_absent ops id rest (fun x hx => h x (List.mem_cons_of_mem _ hx))
    have he := h e (List.mem_cons_self _ _)
    unfold stringScan
    by_cases hd : ops.IsDestroy e.Value = true
    · simp [hd, ih]
    · simp only [Bool.not_eq_true] at hd
      simp [hd, he hd, ih]

theorem formatScan_absent {τ : Type} (ops : TimerOps τ) (id : Int) (layout : String) :
    ∀ l : List (Element τ),
      (∀ e ∈ l, ops.IsDestroy e.Value = false → ops.Id e.Value ≠ id) →
      formatScan ops id layout l = ("", [])
  | [], _ => rfl
  | e :: rest, h => by
    have ih := formatScan_absent ops id layout rest
      (fun x hx => h x (List.mem_cons_of_mem _ hx))
    have he := h e (List.mem_cons_self _ _)
    unfold formatScan
    by_cases hd : ops.IsDestroy e.Value = true
    · simp [hd, ih]
    · simp only [Bool.not_eq_true] at hd
      simp [hd, he hd, ih]

theorem jsonScan_absent {τ : Type} (ops : TimerOps τ) (id : Int) :
    ∀ l : List (Element τ),
      (∀ e ∈ l, ops.IsDestroy e.Value = false → ops.Id e.Value ≠ id) →
      jsonScan ops id l = ("", [])
  | [], _ => rfl
  | e :: rest, h => by
    have ih := jsonScan_absent ops id rest (fun x hx => h x (List.mem_cons_of_mem _ hx))
    have he := h e (List.mem_cons_self _ _)
    unfold jsonScan
    by_cases hd : ops.IsDestroy e.Value = true
    · simp [hd, ih]
    · simp only [Bool.not_eq_true] at hd
      simp [hd, he hd, ih]

/-! ## Claim on the silent lookups -/

/-- C7: when no non-destroyed entry of the registry has the id (the id is absent, or
every entry that carries it is destroyed), `String(id)`, `Format(id, layout)` for every
layout and `ToJson(id)` all return the empty string, call no timer method and leave
the scheduler as it was. -/
theorem lookups_silent_when_absent {τ : Type} (ops : TimerOps τ) (c : GrapeScheduler τ)
    (id : Int) (hfree : c.listLocker = false)
    (habs : ∀ e ∈ c.timerContiner, ops.IsDestroy e.Value = false → ops.Id e.Value ≠ id) :
    String_ ops c id = .ret ⟨"", c, []⟩ ∧
      (∀ layout, Format ops c id layout = .ret ⟨"", c, []⟩) ∧
      ToJson ops c id = .ret ⟨"", c, []⟩ := by
  have hc := unlock_eq_self c hfree
  refine ⟨?_, ?_, ?_⟩
  · simp only [String_, hfree, Bool.false_eq_true, if_false, stringScan_absent ops id _ habs]
    rw [hc]
  · intro layout
    simp only [Format, hfree, Bool.false_eq_true, if_false,
      formatScan_absent ops id layout _ habs]
    rw [hc]
  · simp only [ToJson, hfree, Bool.false_eq_true, if_false, jsonScan_absent ops id _ habs]
    rw [hc]

/-- C7 on a registry whose only entry with the id 7 is destroyed, and for the id 9
that no entry carries. -/
theorem lookups_silent_when_absent_witness :
    (String_ demoOps
        (demoScheduler [⟨0, ⟨7, 0, true, 1⟩⟩, ⟨1, ⟨8, -1, false, 0⟩⟩] 1002) 7
      = .ret ⟨"", demoScheduler [⟨0, ⟨7, 0, true, 1⟩⟩, ⟨1, ⟨8, -1, false, 0⟩⟩] 1002, []⟩ ∧
      (∀ layout, Format demoOps
          (demoScheduler [⟨0, ⟨7, 0, true, 1⟩⟩, ⟨1, ⟨8, -1, false, 0⟩⟩] 1002) 7 layout
        = .ret ⟨"", demoScheduler [⟨0, ⟨7, 0, true, 1⟩⟩, ⟨1, ⟨8, -1, false, 0⟩⟩] 1002, []⟩) ∧
      ToJson demoOps
          (demoScheduler [⟨0, ⟨7, 0, true, 1⟩⟩, ⟨1, ⟨8, -1, false, 0⟩⟩] 1002) 7
        = .ret ⟨"", demoScheduler [⟨0, ⟨7, 0, true, 1⟩⟩, ⟨1, ⟨8, -1, false, 0⟩⟩] 1002, []⟩) :=
  lookups_silent_when_absent demoOps
    (demoScheduler [⟨0, ⟨7, 0, true, 1⟩⟩, ⟨1, ⟨8, -1, false, 0⟩⟩] 1002) 7 rfl (by decide)

/-! ## Lemmas on the loop of StopTimer -/

theorem stopScan_keys {τ : Type} (ops : TimerOps τ) (id : Int) :
    ∀ l : List (Element τ), keys (stopScan ops id l).1 = keys l
  | [] => rfl
  | e :: rest => by
    have ih := stopScan_keys ops id rest
    unfold stopScan
    unfold keys at ih ⊢
    by_cases hd : ops.IsDestroy e.Value = true
    · simp [hd, ih]
    · by_cases hid : ops.Id e.Value = id
      · simp [hd, hid]
      · simp [hd, hid, ih]

theorem stopScan_absent {τ : Type} (ops : TimerOps τ) (id : Int) :
    ∀ l : List (Element τ),
      (∀ e ∈ l, ops.IsDestroy e.Value = false → ops.Id e.Value ≠ id) →
      stopScan ops id l = (l, [])
  | [], _ => rfl
  | e :: rest, h => by
    have ih := stopScan_absent ops id rest (fun x hx => h x (List.mem_cons_of_mem _ hx))
    have he := h e (List.mem_cons_self _ _)
    unfold stopScan
    by_cases hd : ops.IsDestroy e.Value = true
    · simp [hd, ih]
    · simp only [Bool.not_eq_true] at hd
      simp [hd, he hd, ih]

theorem stopScan_first {τ : Type} (ops : TimerOps τ) (id : Int) (e : Element τ)
    (post : List (Element τ)) (hlive : ops.IsDestroy e.Value = false)
    (hid : ops.Id e.Value = id) :
    ∀ pre : List (Element τ),
      (∀ x ∈ pre, ops.IsDestroy x.Value = false → ops.Id x.Value ≠ id) →
      stopScan ops id (pre ++ e :: post)
        = (pre ++ { e with Value := ops.Stop e.Value } :: post, [⟨.Stop, e.key⟩])
  | [], _ => by
    simp [stopScan, hlive, hid]
  | x :: pre, h => by
    have ih := stopScan_first ops id e post hlive hid pre
      (fun y hy => h y (List.mem_cons_of_mem _ hy))
    have hx := h x (List.mem_cons_self _ _)
    rw [List.cons_append]
    unfold stopScan
    by_cases hd : ops.IsDestroy x.Value = true
    · simp [hd, ih]
    · simp only [Bool.not_eq_true] at hd
      simp [hd, hx hd, ih]

/-! ## Claim on StopTimer -/

/-- C8: `StopTimer(id)` returns and leaves the identities and the order of the
registry's elements, and every other field of the scheduler, as they were.  When a
non-destroyed entry has the id, `Stop` is invoked exactly once, on the first such
entry in traversal order, and every other entry (destroyed entries with the id,
later duplicates, entries with other ids) is untouched; when no non-destroyed entry
has the id, no method is invoked and the registry is unchanged. -/
theorem StopTimer_stops_first_live_match {τ : Type} (ops : TimerOps τ)
    (c : GrapeScheduler τ) (id : Int) (hfree : c.listLocker = false) :
    ∃ r, StopTimer ops c id = .ret r ∧
      r.sched = { c with timerContiner := r.sched.timerContiner } ∧
      keys r.sched.timerContiner = keys c.timerContiner ∧
      (∀ pre e post, c.timerContiner = pre ++ e :: post →
        (∀ x ∈ pre, ops.IsDestroy x.Value = false → ops.Id x.Value ≠ id) →
        ops.IsDestroy e.Value = false → ops.Id e.Value = id →
        r.calls = [⟨.Stop, e.key⟩] ∧
        r.sched.timerContiner = pre ++ { e with Value := ops.Stop e.Value } :: post) ∧
      ((∀ e ∈ c.timerContiner, ops.IsDestroy e.Value = false → ops.Id e.Value ≠ id) →
        r.calls = [] ∧ r.sched.timerContiner = c.timerContiner) := by
  refine ⟨⟨(), { c with timerContiner := (stopScan ops id c.timerContiner).1 },
    (stopScan ops id c.timerContiner).2⟩, ?_, rfl, stopScan_keys ops id _, ?_, ?_⟩
  · cases c
    simp_all [StopTimer]
  · intro pre e post hsplit hpre hlive hid
    simp only [hsplit, stopScan_first ops id e post hlive hid pre hpre, and_self]
  · intro habs
    simp only [stopScan_absent ops id _ habs, and_self]

/-- C8 on a registry that holds, in this order, a destroyed entry with the id 7, a
live entry with the id 8, a live entry with the id 7 and a second live entry with
the id 7. -/
theorem StopTimer_stops_first_live_match_witness :
    ∃ r, StopTimer demoOps
        (demoScheduler [⟨0, ⟨7, 0, true, 1⟩⟩, ⟨1, ⟨8, -1, false, 0⟩⟩,
          ⟨2, ⟨7, -1, false, 0⟩⟩, ⟨3, ⟨7, 3, false, 0⟩⟩] 1002) 7 = .ret r ∧
      r.calls = [⟨.Stop, 2⟩] ∧
      r.sched.timerContiner = [⟨0, ⟨7, 0, true, 1⟩⟩, ⟨1, ⟨8, -1, false, 0⟩⟩,
          ⟨2, ⟨7, -1, true, 0⟩⟩, ⟨3, ⟨7, 3, false, 0⟩⟩] := by
  obtain ⟨r, hr, _, _, hfirst, _⟩ := StopTimer_stops_first_live_match demoOps
    (demoScheduler [⟨0, ⟨7, 0, true, 1⟩⟩, ⟨1, ⟨8, -1, false, 0⟩⟩,
      ⟨2, ⟨7, -1, false, 0⟩⟩, ⟨3, ⟨7, 3, false, 0⟩⟩] 1002) 7 rfl
  exact ⟨r, hr, hfirst [⟨0, ⟨7, 0, true, 1⟩⟩, ⟨1, ⟨8, -1, false, 0⟩⟩] ⟨2, ⟨7, -1, false, 0⟩⟩
    [⟨3, ⟨7, 3, false, 0⟩⟩] rfl (by decide) rfl rfl⟩

/-! ## Lemmas on container/list -/

theorem Next_append_cons {τ : Type} (e : Element τ) (rest : List (Element τ)) :
    ∀ pre : List (Element τ), e.key ∉ keys pre →
      Next (pre ++ e :: rest) e.key = Front rest
  | [], _ => by simp [Next]
  | x :: pre, h => by
    have hx : x.key ≠ e.key := by
      intro hxe
      exact h (by simp [keys, hxe])
    have ih := Next_append_cons e rest pre (by
      intro hmem
      exact h (by simp only [keys, List.map_cons] at hmem ⊢; exact List.mem_cons_of_mem _ hmem))
    simp [Next, hx, ih]

theorem valueOf_append_cons {τ : Type} (e : Element τ) (rest : List (Element τ)) :
    ∀ pre : List (Element τ), e.key ∉ keys pre →
      valueOf (pre ++ e :: rest) e.key = some e.Value
  | [], _ => by simp [valueOf]
  | x :: pre, h => by
    have hx : x.key ≠ e.key := by
      intro hxe
      exact h (by simp [keys, hxe])
    have ih := valueOf_append_cons e rest pre (by
      intro hmem
      exact h (by simp only [keys, List.map_cons] at hmem ⊢; exact List.mem_cons_of_mem _ hmem))
    simp [valueOf, hx, ih]

theorem setValue_append_cons {τ : Type} (e : Element τ) (rest : List (Element τ)) (v : τ) :
    ∀ pre : List (Element τ), e.key ∉ keys pre →
      setValue (pre ++ e :: rest) e.key v = pre ++ { e with Value := v } :: rest
  | [], _ => by simp [setValue]
  | x :: pre, h => by
    have hx : x.key ≠ e.key := by
      intro hxe
      exact h (by simp [keys, hxe])
    have ih := setValue_append_cons e rest v pre (by
      intro hmem
      exact h (by simp only [keys, List.map_cons] at hmem ⊢; exact List.mem_cons_of_mem _ hmem))
    simp [setValue, hx, ih]

theorem Remove_append_cons {τ : Type} (e : Element τ) (rest : List (Element τ)) :
    ∀ pre : List (Element τ), e.key ∉ keys pre →
      Remove (pre ++ e :: rest) e.key = pre ++ rest
  | [], _ => by simp [Remove]
  | x :: pre, h => by
    have hx : x.key ≠ e.key := by
      intro hxe
      exact h (by simp [keys, hxe])
    have ih := Remove_append_cons e rest pre (by
      intro hmem
      exact h (by simp only [keys, List.map_cons] at hmem ⊢; exact List.mem_cons_of_mem _ hmem))
    simp [Remove, hx, ih]

theorem keys_append {τ : Type} (a b : List (Element τ)) : keys (a ++ b) = keys a ++ keys b := by
  simp [keys]

/-! ## The traversal loop refines the pass of the specification -/

/-- From a cursor that stands on the first element of the not yet visited suffix
`suf`, with `pre` the elements already visited and kept, and with fuel for every
element of `suf`, the loop of the code ends in the state the specification's pass
over `suf` describes. -/
theorem tickLoop_eq_passBySpec {τ : Type} (ops : TimerOps τ) (dbg : Bool) :
    ∀ (suf pre : List (Element τ)) (fuel : Nat) (calls : List Call) (logs : List LogLine),
      (keys (pre ++ suf)).Nodup → suf.length ≤ fuel →
      tickLoop ops dbg fuel (Front suf) (pre ++ suf) calls logs
        = ⟨pre ++ (passBySpec ops dbg suf).timerContiner,
           calls ++ (passBySpec ops dbg suf).calls,
           logs ++ (passBySpec ops dbg suf).logs,
           (passBySpec ops dbg suf).status⟩
  | [], pre, fuel, calls, logs, _, _ => by
    cases fuel <;> simp [Front, tickLoop, passBySpec]
  | e :: rest, pre, 0, _, _, _, hfuel => by
    simp at hfuel
  | e :: rest, pre, fuel + 1, calls, logs, hnd, hfuel => by
    have hfuel' : rest.length ≤ fuel := by
      simp only [List.length_cons] at hfuel
      omega
    have hnd' : (keys pre ++ e.key :: keys rest).Nodup := by
      simpa [keys] using hnd
    have hpre : e.key ∉ keys pre := by
      intro hmem
      exact (List.nodup_append.mp hnd').2.2 hmem (List.mem_cons_self _ _)
    have hnd1 : ∀ v : τ, (keys ((pre ++ [{ e with Value := v }]) ++ rest)).Nodup := by
      intro v
      simpa [keys] using hnd
    have hnd2 : (keys (pre ++ rest)).Nodup := by
      rw [keys_append]
      exact List.Nodup.sublist
        (List.Sublist.append_left (List.sublist_cons_self _ _) _) hnd'
    have hkey : ∀ v : τ, ({ e with Value := v } : Element τ).key = e.key := fun _ => rfl
    rw [show Front (e :: rest) = some e.key from rfl]
    simp only [tickLoop, Next_append_cons e rest pre hpre,
      valueOf_append_cons e rest pre hpre, setValue_append_cons e rest _ pre hpre]
    cases hx : (ops.Execute e.Value).2 with
    | some msg =>
      simp [passBySpec, hx]
    | none =>
      by_cases hd : ops.IsDestroy (ops.Execute e.Value).1 = true
      · have hrm := Remove_append_cons { e with Value := (ops.Execute e.Value).1 } rest pre
          (by rw [hkey]; exact hpre)
        rw [hkey] at hrm
        have ih := tickLoop_eq_passBySpec ops dbg rest pre fuel
          (calls ++ [⟨.Execute, e.key⟩])
          (if dbg then logs ++ [.removeId (ops.Id (ops.Execute e.Value).1)] else logs)
          hnd2 hfuel'
        simp only [hd, if_true, hrm]
        rw [ih]
        cases dbg <;> simp [passBySpec, hx, hd]
      · have ih := tickLoop_eq_passBySpec ops dbg rest (pre ++ [{ e with Value := (ops.Execute e.Value).1 }])
          fuel (calls ++ [⟨.Execute, e.key⟩]) logs (hnd1 _) hfuel'
        simp only [List.append_assoc, List.singleton_append] at ih
        simp only [hd, if_false]
        rw [ih]
        simp [passBySpec, hx, hd]

/-- When no execution is left by a panic, the specification's pass finishes, keeps
exactly the entries that do not report destroyed after their execution, in their
order and in the state the execution left them in, and records one `Execute` call
per entry, in insertion order. -/
theorem passBySpec_of_no_fault {τ : Type} (ops : TimerOps τ) (dbg : Bool) :
    ∀ l : List (Element τ), (∀ e ∈ l, (ops.Execute e.Value).2 = none) →
      (passBySpec ops dbg l).status = .finished ∧
      (passBySpec ops dbg l).timerContiner
        = (l.filter (fun e => !ops.IsDestroy (ops.Execute e.Value).1)).map
            (fun e => { e with Value := (ops.Execute e.Value).1 }) ∧
      (passBySpec ops dbg l).calls = l.map (fun e => ⟨.Execute, e.key⟩)
  | [], _ => by simp [passBySpec]
  | e :: rest, h => by
    have ih := passBySpec_of_no_fault ops dbg rest
      (fun x hx => h x (List.mem_cons_of_mem _ hx))
    have he := h e (List.mem_cons_self _ _)
    by_cases hd : ops.IsDestroy (ops.Execute e.Value).1 = true
    · simp [passBySpec, he, hd, ih]
    · simp [passBySpec, he, hd, ih]

/-- A pulse on a free mutex and a registry of pairwise distinct elements, none of
whose executions is left by a panic: the pulse returns with the mutex released, the
registry reduced to the entries that did not report destroyed at their check, and
one recorded `Execute` call per entry of the registry, in insertion order. -/
theorem procSchedulerTick_of_no_fault {τ : Type} (ops : TimerOps τ) (dbg : Bool)
    (c : GrapeScheduler τ) (hfree : c.listLocker = false)
    (hnd : (keys c.timerContiner).Nodup)
    (hex : ∀ e ∈ c.timerContiner, (ops.Execute e.Value).2 = none) :
    ∃ logs, procSchedulerTick ops dbg c
      = ⟨{ c with
                timerContiner :=
                  (c.timerContiner.filter
                    (fun e => !ops.IsDestroy (ops.Execute e.Value).1)).map
                    (fun e => { e with Value := (ops.Execute e.Value).1 }) },
              c.timerContiner.map (fun e => ⟨.Execute, e.key⟩), logs, .finished⟩ := by
  obtain ⟨hst, hreg, hcalls⟩ := passBySpec_of_no_fault ops dbg c.timerContiner hex
  have hloop := tickLoop_eq_passBySpec ops dbg c.timerContiner [] c.timerContiner.length []
    (if dbg then [LogLine.tickOnce] else []) (by simpa using hnd) (le_refl _)
  simp only [List.nil_append] at hloop
  refine ⟨if dbg then ((if dbg then [LogLine.tickOnce] else [])
      ++ (passBySpec ops dbg c.timerContiner).logs) ++ [.tickOnceEnd]
    else (if dbg then [LogLine.tickOnce] else []) ++ (passBySpec ops dbg c.timerContiner).logs, ?_⟩
  simp only [procSchedulerTick, hfree, Bool.false_eq_true, if_false, hloop, hst, hreg, hcalls]

/-! ## Which entries the queries render -/

theorem listScan_calls_mem {τ : Type} (ops : TimerOps τ) :
    ∀ (l : List (Element τ)) (temp : List (Int × String)),
      ∀ call ∈ (listScan ops l temp).2, call.elem ∈ keys l
  | [], _, call, h => by simp [listScan] at h
  | e :: rest, temp, call, h => by
    unfold listScan at h
    by_cases hd : ops.IsDestroy e.Value = true
    · simp only [hd, if_true] at h
      have := listScan_calls_mem ops rest temp call h
      simp only [keys, List.map_cons] at this ⊢
      exact List.mem_cons_of_mem _ this
    · simp only [hd, if_false, List.mem_cons, Bool.false_eq_true] at h
      rcases h with h | h
      · subst h
        simp [keys]
      · have := listScan_calls_mem ops rest _ call h
        simp only [keys, List.map_cons] at this ⊢
        exact List.mem_cons_of_mem _ this

theorem saveScan_calls_mem {τ : Type} (ops : TimerOps τ) :
    ∀ (l : List (Element τ)) (jsonArr : Option (List String)),
      ∀ call ∈ (saveScan ops l jsonArr).2, call.elem ∈ keys l
  | [], _, call, h => by simp [saveScan] at h
  | e :: rest, jsonArr, call, h => by
    unfold saveScan at h
    by_cases hd : ops.IsDestroy e.Value = true
    · simp only [hd, if_true] at h
      have := saveScan_calls_mem ops rest jsonArr call h
      simp only [keys, List.map_cons] at this ⊢
      exact List.mem_cons_of_mem _ this
    · simp only [hd, if_false, List.mem_cons, Bool.false_eq_true] at h
      rcases h with h | h
      · subst h
        simp [keys]
      · have := saveScan_calls_mem ops rest _ call h
        simp only [keys, List.map_cons] at this ⊢
        exact List.mem_cons_of_mem _ this

theorem stringScan_calls_mem {τ : Type} (ops : TimerOps τ) (id : Int) :
    ∀ (l : List (Element τ)), ∀ call ∈ (stringScan ops id l).2, call.elem ∈ keys l
  | [], call, h => by simp [stringScan] at h
  | e :: rest, call, h => by
    unfold stringScan at h
    by_cases hd : ops.IsDestroy e.Value = true
    · simp only [hd, if_true] at h
      have := stringScan_calls_mem ops id rest call h
      simp only [keys, List.map_cons] at this ⊢
      exact List.mem_cons_of_mem _ this
    · by_cases hid : ops.Id e.Value = id
      · simp only [hd, if_false, hid, if_true, List.mem_singleton, Bool.false_eq_true] at h
        subst h
        simp [keys]
      · simp only [hd, if_false, hid, Bool.false_eq_true] at h
        have := stringScan_calls_mem ops id rest call h
        simp only [keys, List.map_cons] at this ⊢
        exact List.mem_cons_of_mem _ this

theorem formatScan_calls_mem {τ : Type} (ops : TimerOps τ) (id : Int) (layout : String) :
    ∀ (l : List (Element τ)), ∀ call ∈ (formatScan ops id layout l).2, call.elem ∈ keys l
  | [], call, h => by simp [formatScan] at h
  | e :: rest, call, h => by
    unfold formatScan at h
    by_cases hd : ops.IsDestroy e.Value = true
    · simp only [hd, if_true] at h
      have := formatScan_calls_mem ops id layout rest call h
      simp only [keys, List.map_cons] at this ⊢
      exact List.mem_cons_of_mem _ this
    · by_cases hid : ops.Id e.Value = id
      · simp only [hd, if_false, hid, if_true, List.mem_singleton, Bool.false_eq_true] at h
        subst h
        simp [keys]
      · simp only [hd, if_false, hid, Bool.false_eq_true] at h
        have := formatScan_calls_mem ops id layout rest call h
        simp only [keys, List.map_cons] at this ⊢
        exact List.mem_cons_of_mem _ this

theorem jsonScan_calls_mem {τ : Type} (ops : TimerOps τ) (id : Int) :
    ∀ (l : List (Element τ)), ∀ call ∈ (jsonScan ops id l).2, call.elem ∈ keys l
  | [], call, h => by simp [jsonScan] at h
  | e :: rest, call, h => by
    unfold jsonScan at h
    by_cases hd : ops.IsDestroy e.Value = true
    · simp only [hd, if_true] at h
      have := jsonScan_calls_mem ops id rest call h
      simp only [keys, List.map_cons] at this ⊢
      exact List.mem_cons_of_mem _ this
    · by_cases hid : ops.Id e.Value = id
      · simp only [hd, if_false, hid, if_true, List.mem_singleton, Bool.false_eq_true] at h
        subst h
        simp [keys]
      · simp only [hd, if_false, hid, Bool.false_eq_true] at h
        have := jsonScan_calls_mem ops id rest call h
        simp only [keys, List.map_cons] at this ⊢
        exact List.mem_cons_of_mem _ this

/-- In a registry of pairwise distinct elements, an entry that reports destroyed
after its execution is not among the elements the pass keeps. -/
theorem purged_key_not_kept {τ : Type} (ops : TimerOps τ) (l : List (Element τ))
    (hnd : (keys l).Nodup) (e : Element τ) (he : e ∈ l)
    (hd : ops.IsDestroy (ops.Execute e.Value).1 = true) :
    e.key ∉ keys ((l.filter (fun x => !ops.IsDestroy (ops.Execute x.Value).1)).map
      (fun x => { x with Value := (ops.Execute x.Value).1 })) := by
  intro hmem
  simp only [keys, List.map_map, List.mem_map, List.mem_filter, Function.comp] at hmem
  obtain ⟨x, ⟨hx, hkeep⟩, hkey⟩ := hmem
  have hxe : x = e := List.inj_on_of_nodup_map hnd hx he hkey
  subst hxe
  simp [hd] at hkeep

theorem List__returns {τ : Type} (ops : TimerOps τ) (c : GrapeScheduler τ)
    (hfree : c.listLocker = false) :
    ∃ q, List_ ops c = .ret q ∧ ∀ call ∈ q.calls, call.elem ∈ keys c.timerContiner :=
  ⟨⟨(listScan ops c.timerContiner []).1, { c with listLocker := false }, (listScan ops c.timerContiner []).2⟩,
    by simp only [List_, hfree, Bool.false_eq_true, if_false],
    listScan_calls_mem ops c.timerContiner []⟩

theorem String__returns {τ : Type} (ops : TimerOps τ) (c : GrapeScheduler τ) (id : Int)
    (hfree : c.listLocker = false) :
    ∃ q, String_ ops c id = .ret q ∧ ∀ call ∈ q.calls, call.elem ∈ keys c.timerContiner :=
  ⟨⟨(stringScan ops id c.timerContiner).1, { c with listLocker := false }, (stringScan ops id c.timerContiner).2⟩,
    by simp only [String_, hfree, Bool.false_eq_true, if_false],
    stringScan_calls_mem ops id c.timerContiner⟩

theorem Format_returns {τ : Type} (ops : TimerOps τ) (c : GrapeScheduler τ) (id : Int)
    (layout : String) (hfree : c.listLocker = false) :
    ∃ q, Format ops c id layout = .ret q ∧
      ∀ call ∈ q.calls, call.elem ∈ keys c.timerContiner :=
  ⟨⟨(formatScan ops id layout c.timerContiner).1, { c with listLocker := false }, (formatScan ops id layout c.timerContiner).2⟩,
    by simp only [Format, hfree, Bool.false_eq_true, if_false],
    formatScan_calls_mem ops id layout c.timerContiner⟩

theorem ToJson_returns {τ : Type} (ops : TimerOps τ) (c : GrapeScheduler τ) (id : Int)
    (hfree : c.listLocker = false) :
    ∃ q, ToJson ops c id = .ret q ∧ ∀ call ∈ q.calls, call.elem ∈ keys c.timerContiner :=
  ⟨⟨(jsonScan ops id c.timerContiner).1, { c with listLocker := false }, (jsonScan ops id c.timerContiner).2⟩,
    by simp only [ToJson, hfree, Bool.false_eq_true, if_false],
    jsonScan_calls_mem ops id c.timerContiner⟩

theorem SaveAll_returns {τ : Type} (ops : TimerOps τ) (c : GrapeScheduler τ)
    (hfree : c.listLocker = false) :
    ∃ q, SaveAll ops c = .ret q ∧ ∀ call ∈ q.calls, call.elem ∈ keys c.timerContiner :=
  ⟨⟨(saveScan ops c.timerContiner (some [])).1, { c with listLocker := false },
      (saveScan ops c.timerContiner (some [])).2⟩,
    by simp only [SaveAll, hfree, Bool.false_eq_true, if_false],
    saveScan_calls_mem ops c.timerContiner (some [])⟩

/-! ## Claims on the pulse -/

/-- C9: a pulse on a free mutex, over a registry of pairwise distinct elements none of
whose executions is left by a panic, ends with the mutex released and with the
registry equal to the subsequence, in the original order, of the entries that did
not report destroyed when checked after their `Execute` call.  Every entry that did
report destroyed is absent from the registry when the pulse ends, and `List`,
`String`, `Format`, `ToJson` and `SaveAll` issued on the scheduler the pulse leaves
return without rendering it. -/
theorem pulse_purges_destroyed_entries {τ : Type} (ops : TimerOps τ) (dbg : Bool)
    (c : GrapeScheduler τ) (hfree : c.listLocker = false)
    (hnd : (keys c.timerContiner).Nodup)
    (hex : ∀ e ∈ c.timerContiner, (ops.Execute e.Value).2 = none) :
    (procSchedulerTick ops dbg c).status = .finished ∧
      (procSchedulerTick ops dbg c).sched.listLocker = false ∧
      (procSchedulerTick ops dbg c).sched.timerContiner
        = (c.timerContiner.filter (fun e => !ops.IsDestroy (ops.Execute e.Value).1)).map
            (fun e => { e with Value := (ops.Execute e.Value).1 }) ∧
      ∀ e ∈ c.timerContiner, ops.IsDestroy (ops.Execute e.Value).1 = true →
        e.key ∉ keys (procSchedulerTick ops dbg c).sched.timerContiner ∧
        (∃ q, List_ ops (procSchedulerTick ops dbg c).sched = .ret q ∧
          ∀ call ∈ q.calls, call.elem ≠ e.key) ∧
        (∀ id, ∃ q, String_ ops (procSchedulerTick ops dbg c).sched id = .ret q ∧
          ∀ call ∈ q.calls, call.elem ≠ e.key) ∧
        (∀ id layout, ∃ q, Format ops (procSchedulerTick ops dbg c).sched id layout = .ret q ∧
          ∀ call ∈ q.calls, call.elem ≠ e.key) ∧
        (∀ id, ∃ q, ToJson ops (procSchedulerTick ops dbg c).sched id = .ret q ∧
          ∀ call ∈ q.calls, call.elem ≠ e.key) ∧
        (∃ q, SaveAll ops (procSchedulerTick ops dbg c).sched = .ret q ∧
          ∀ call ∈ q.calls, call.elem ≠ e.key) := by
  obtain ⟨logs, hrun⟩ := procSchedulerTick_of_no_fault ops dbg c hfree hnd hex
  rw [hrun]
  refine ⟨rfl, hfree, rfl, ?_⟩
  intro e he hd
  have hfree' : ({ c with
      timerContiner :=
        (c.timerContiner.filter (fun x => !ops.IsDestroy (ops.Execute x.Value).1)).map
          (fun x => { x with Value := (ops.Execute x.Value).1 }) }
      : GrapeScheduler τ).listLocker = false := hfree
  have hgone := purged_key_not_kept ops c.timerContiner hnd e he hd
  have hne : ∀ {calls : List Call},
      (∀ call ∈ calls, call.elem ∈ keys
        ((c.timerContiner.filter (fun x => !ops.IsDestroy (ops.Execute x.Value).1)).map
          (fun x => { x with Value := (ops.Execute x.Value).1 }))) →
      ∀ call ∈ calls, call.elem ≠ e.key := by
    intro calls hall call hcall heq
    exact hgone (heq ▸ hall call hcall)
  refine ⟨hgone, ?_, ?_, ?_, ?_, ?_⟩
  · obtain ⟨q, hq, hmem⟩ := List__returns ops _ hfree'
    exact ⟨q, hq, hne hmem⟩
  · intro id
    obtain ⟨q, hq, hmem⟩ := String__returns ops _ id hfree'
    exact ⟨q, hq, hne hmem⟩
  · intro id layout
    obtain ⟨q, hq, hmem⟩ := Format_returns ops _ id layout hfree'
    exact ⟨q, hq, hne hmem⟩
  · intro id
    obtain ⟨q, hq, hmem⟩ := ToJson_returns ops _ id hfree'
    exact ⟨q, hq, hne hmem⟩
  · obtain ⟨q, hq, hmem⟩ := SaveAll_returns ops _ hfree'
    exact ⟨q, hq, hne hmem⟩

/-- C9 on a registry of four sample timers of which the first and the third destroy
themselves on their first execution: the pulse keeps the second and the fourth. -/
theorem pulse_purges_destroyed_entries_witness :
    (procSchedulerTick demoOps true (demoScheduler (demoRegistry 4) 1004)).status
        = .finished ∧
      (procSchedulerTick demoOps true
          (demoScheduler (demoRegistry 4) 1004)).sched.listLocker = false ∧
      (procSchedulerTick demoOps true
          (demoScheduler (demoRegistry 4) 1004)).sched.timerContiner
        = [⟨1, ⟨1002, -1, false, 1⟩⟩, ⟨3, ⟨1004, -1, false, 1⟩⟩] := by
  obtain ⟨hst, hfree, hreg, _⟩ := pulse_purges_destroyed_entries demoOps true
    (demoScheduler (demoRegistry 4) 1004) rfl (by decide) (by decide)
  exact ⟨hst, hfree, by rw [hreg]; decide⟩

/-- C10: a pulse on a free mutex, over a registry of pairwise distinct elements none of
whose executions is left by a panic, calls `Execute` on every entry of the registry
exactly once, in insertion order, whichever entries become destroyed and are removed
while the traversal stands on them. -/
theorem pulse_executes_every_entry_once {τ : Type} (ops : TimerOps τ) (dbg : Bool)
    (c : GrapeScheduler τ) (hfree : c.listLocker = false)
    (hnd : (keys c.timerContiner).Nodup)
    (hex : ∀ e ∈ c.timerContiner, (ops.Execute e.Value).2 = none) :
    (procSchedulerTick ops dbg c).status = .finished ∧
      (procSchedulerTick ops dbg c).calls
        = c.timerContiner.map (fun e => ⟨.Execute, e.key⟩) ∧
      (procSchedulerTick ops dbg c).calls.length = c.timerContiner.length ∧
      (∀ e ∈ c.timerContiner,
        (procSchedulerTick ops dbg c).calls.count ⟨.Execute, e.key⟩ = 1) := by
  obtain ⟨logs, hrun⟩ := procSchedulerTick_of_no_fault ops dbg c hfree hnd hex
  rw [hrun]
  refine ⟨rfl, rfl, by simp, ?_⟩
  intro e he
  have hcalls : c.timerContiner.map (fun e => (⟨.Execute, e.key⟩ : Call))
      = (keys c.timerContiner).map (fun k => (⟨.Execute, k⟩ : Call)) := by
    simp [keys]
  have hinj : Function.Injective (fun k : Nat => (⟨.Execute, k⟩ : Call)) := by
    intro a b hab
    injection hab
  show List.count _ (c.timerContiner.map (fun e => (⟨.Execute, e.key⟩ : Call))) = 1
  rw [hcalls]
  apply List.count_eq_one_of_mem (hnd.map hinj)
  exact List.mem_map.mpr ⟨e.key, List.mem_map.mpr ⟨e, he, rfl⟩, rfl⟩

/-- C10 on the scenario of the specification: a registry of 100 sample timers in which
every other one destroys itself on its first execution. -/
theorem pulse_executes_every_entry_once_witness :
    (procSchedulerTick demoOps true (demoScheduler (demoRegistry 100) 1100)).status
        = .finished ∧
      (procSchedulerTick demoOps true (demoScheduler (demoRegistry 100) 1100)).calls
        = (demoScheduler (demoRegistry 100) 1100).timerContiner.map
            (fun e => ⟨.Execute, e.key⟩) ∧
      (procSchedulerTick demoOps true (demoScheduler (demoRegistry 100) 1100)).calls.length
        = (demoScheduler (demoRegistry 100) 1100).timerContiner.length ∧
      (∀ e ∈ (demoScheduler (demoRegistry 100) 1100).timerContiner,
        (procSchedulerTick demoOps true
          (demoScheduler (demoRegistry 100) 1100)).calls.count ⟨.Execute, e.key⟩ = 1) :=
  pulse_executes_every_entry_once demoOps true (demoScheduler (demoRegistry 100) 1100) rfl
    (by decide) (by decide)

/-! ## Lemmas on the loop of SaveAll -/

theorem mem_live {τ : Type} (ops : TimerOps τ) (l : List (Element τ)) (e : Element τ) :
    e ∈ live ops l ↔ e ∈ l ∧ ops.IsDestroy e.Value = false := by
  simp [live, List.mem_filter]

theorem saveScan_eq {τ : Type} (ops : TimerOps τ) :
    ∀ (l : List (Element τ)) (acc : List String),
      saveScan ops l (some acc)
        = (some (acc ++ (live ops l).map (fun e => ops.toJson e.Value)),
           (live ops l).map (fun e => ⟨.toJson, e.key⟩))
  | [], acc => by simp [saveScan, live]
  | e :: rest, acc => by
    unfold saveScan
    by_cases hd : ops.IsDestroy e.Value = true
    · simp [hd, live, saveScan_eq ops rest acc]
    · simp only [Bool.not_eq_true] at hd
      simp [hd, live, goAppend, saveScan_eq ops rest (acc ++ [ops.toJson e.Value])]

/-! ## Claim on SaveAll -/

/-- C11: `SaveAll` returns, as a slice that is not nil, exactly the `toJson` renderings
of the non-destroyed entries in traversal order; its length is the number of
non-destroyed entries, it renders no destroyed entry, it is empty when the registry
has no non-destroyed entry, and the scheduler is left as it was. -/
theorem SaveAll_renders_live_entries {τ : Type} (ops : TimerOps τ) (c : GrapeScheduler τ)
    (hfree : c.listLocker = false) :
    SaveAll ops c
        = .ret ⟨some ((live ops c.timerContiner).map (fun e => ops.toJson e.Value)), c,
            (live ops c.timerContiner).map (fun e => ⟨.toJson, e.key⟩)⟩ ∧
      ((live ops c.timerContiner).map (fun e => ops.toJson e.Value)).length
        = c.timerContiner.countP (fun e => !ops.IsDestroy e.Value) ∧
      (∀ e ∈ live ops c.timerContiner, e ∈ c.timerContiner ∧ ops.IsDestroy e.Value = false) ∧
      ((∀ e ∈ c.timerContiner, ops.IsDestroy e.Value = true) →
        SaveAll ops c = .ret ⟨some [], c, []⟩) := by
  have hrun : SaveAll ops c
      = .ret ⟨some ((live ops c.timerContiner).map (fun e => ops.toJson e.Value)), c,
          (live ops c.timerContiner).map (fun e => ⟨.toJson, e.key⟩)⟩ := by
    simp only [SaveAll, hfree, Bool.false_eq_true, if_false, saveScan_eq, List.nil_append]
    rw [unlock_eq_self c hfree]
  refine ⟨hrun, ?_, ?_, ?_⟩
  · simp [live, List.countP_eq_length_filter]
  · intro e he
    exact (mem_live ops _ e).mp he
  · intro hall
    have hnil : live ops c.timerContiner = [] := by
      simp only [live, List.filter_eq_nil_iff]
      intro e he
      simp [hall e he]
    rw [hrun, hnil]
    rfl

/-- C11 on a registry that holds a destroyed entry between two live ones. -/
theorem SaveAll_renders_live_entries_witness :
    SaveAll demoOps
        (demoScheduler [⟨0, ⟨7, -1, false, 0⟩⟩, ⟨1, ⟨8, 0, true, 1⟩⟩, ⟨2, ⟨9, 3, false, 0⟩⟩] 1002)
      = .ret ⟨some ["{}", "{}"],
          demoScheduler [⟨0, ⟨7, -1, false, 0⟩⟩, ⟨1, ⟨8, 0, true, 1⟩⟩, ⟨2, ⟨9, 3, false, 0⟩⟩] 1002,
          [⟨.toJson, 0⟩, ⟨.toJson, 2⟩]⟩ :=
  (SaveAll_renders_live_entries demoOps
    (demoScheduler [⟨0, ⟨7, -1, false, 0⟩⟩, ⟨1, ⟨8, 0, true, 1⟩⟩, ⟨2, ⟨9, 3, false, 0⟩⟩] 1002)
    rfl).1

/-! ## Lemmas on the map built by List -/

theorem mapGet_filter_ne (k k' : Int) (hne : k ≠ k') :
    ∀ m : List (Int × String),
      mapGet (m.filter (fun p => decide (p.1 ≠ k))) k' = mapGet m k'
  | [] => rfl
  | p :: rest => by
    have ih := mapGet_filter_ne k k' hne rest
    simp only [ne_eq, decide_not] at ih ⊢
    by_cases hp : p.1 = k
    · simp [List.filter, hp, mapGet, hne, ih]
    · simp [List.filter, hp, mapGet, ih]

theorem mapGet_mapSet (m : List (Int × String)) (k : Int) (v : String) (k' : Int) :
    mapGet (mapSet m k v) k' = if k = k' then some v else mapGet m k' := by
  unfold mapSet
  by_cases h : k = k'
  · simp [mapGet, h]
  · have hf := mapGet_filter_ne k k' h m
    simp only [ne_eq, decide_not] at hf
    simp [mapGet, h, hf]

theorem mem_keys_iff_mapGet (k : Int) :
    ∀ m : List (Int × String), k ∈ m.map Prod.fst ↔ ∃ v, mapGet m k = some v
  | [] => by simp [mapGet]
  | p :: rest => by
    have ih := mem_keys_iff_mapGet k rest
    by_cases hp : p.1 = k
    · simp [mapGet, hp]
    · have hp' : ¬ k = p.1 := fun h => hp h.symm
      simp [mapGet, hp, hp', ih]

theorem mapSet_keys_nodup (m : List (Int × String)) (k : Int) (v : String)
    (hm : (m.map Prod.fst).Nodup) : ((mapSet m k v).map Prod.fst).Nodup := by
  unfold mapSet
  rw [List.map_cons, List.nodup_cons]
  constructor
  · intro hmem
    obtain ⟨p, hp, hpk⟩ := List.mem_map.mp hmem
    have := (List.mem_filter.mp hp).2
    simp at this
    exact this hpk
  · exact List.Nodup.sublist (List.Sublist.map _ (List.filter_sublist _)) hm

theorem listScan_keys_nodup {τ : Type} (ops : TimerOps τ) :
    ∀ (l : List (Element τ)) (temp : List (Int × String)),
      (temp.map Prod.fst).Nodup → ((listScan ops l temp).1.map Prod.fst).Nodup
  | [], _, h => h
  | e :: rest, temp, h => by
    unfold listScan
    by_cases hd : ops.IsDestroy e.Value = true
    · simp only [hd, if_true]
      exact listScan_keys_nodup ops rest temp h
    · simp only [hd, if_false, Bool.false_eq_true]
      exact listScan_keys_nodup ops rest _ (mapSet_keys_nodup temp _ _ h)

theorem listScan_calls {τ : Type} (ops : TimerOps τ) :
    ∀ (l : List (Element τ)) (temp : List (Int × String)),
      (listScan ops l temp).2 = (live ops l).map (fun e => ⟨.String_, e.key⟩)
  | [], _ => rfl
  | e :: rest, temp => by
    unfold listScan
    by_cases hd : ops.IsDestroy e.Value = true
    · simp [hd, live, listScan_calls ops rest temp]
    · simp only [Bool.not_eq_true] at hd
      simp [hd, live, listScan_calls ops rest]

theorem listScan_get {τ : Type} (ops : TimerOps τ) (k : Int) :
    ∀ (l : List (Element τ)) (temp : List (Int × String)),
      mapGet (listScan ops l temp).1 k
        = match lastLive ops k l with
          | some x => some (ops.String_ x.Value)
          | none => mapGet temp k
  | [], _ => rfl
  | e :: rest, temp => by
    unfold listScan
    by_cases hd : ops.IsDestroy e.Value = true
    · simp only [hd, if_true]
      rw [listScan_get ops k rest temp]
      cases hl : lastLive ops k rest <;> simp [lastLive, hl, hd]
    · simp only [Bool.not_eq_true] at hd
      simp only [hd, if_false, Bool.false_eq_true]
      rw [listScan_get ops k rest _]
      cases hl : lastLive ops k rest with
      | some x => simp [lastLive, hl]
      | none =>
        by_cases hk : ops.Id e.Value = k
        · simp [lastLive, hl, hd, hk, mapGet_mapSet]
        · simp [lastLive, hl, hd, hk, mapGet_mapSet]

theorem lastLive_some {τ : Type} (ops : TimerOps τ) (k : Int) (x : Element τ) :
    ∀ l : List (Element τ), lastLive ops k l = some x →
      x ∈ l ∧ ops.IsDestroy x.Value = false ∧ ops.Id x.Value = k
  | [], h => by simp [lastLive] at h
  | e :: rest, h => by
    unfold lastLive at h
    cases hl : lastLive ops k rest with
    | some y =>
      rw [hl] at h
      simp only [Option.some.injEq] at h
      subst h
      obtain ⟨hm, hrest⟩ := lastLive_some ops k y rest hl
      exact ⟨List.mem_cons_of_mem _ hm, hrest⟩
    | none =>
      rw [hl] at h
      by_cases hc : ops.IsDestroy e.Value = false ∧ ops.Id e.Value = k
      · simp only [hc, and_self, if_true, Option.some.injEq] at h
        subst h
        exact ⟨List.mem_cons_self _ _, hc⟩
      · simp [hc] at h

theorem lastLive_none {τ : Type} (ops : TimerOps τ) (k : Int) :
    ∀ l : List (Element τ), lastLive ops k l = none →
      ∀ e ∈ l, ops.IsDestroy e.Value = false → ops.Id e.Value ≠ k
  | [], _, e, he, _ => by simp at he
  | x :: rest, h, e, he, hlive => by
    unfold lastLive at h
    cases hl : lastLive ops k rest with
    | some y => rw [hl] at h; simp at h
    | none =>
      rw [hl] at h
      rcases List.mem_cons.mp he with rfl | hmem
      · intro hk
        simp [hlive, hk] at h
      · exact lastLive_none ops k rest hl e hmem hlive

theorem lastLive_of_distinct {τ : Type} (ops : TimerOps τ) (l : List (Element τ))
    (hids : (ids ops (live ops l)).Nodup) (e : Element τ) (he : e ∈ l)
    (hlive : ops.IsDestroy e.Value = false) :
    lastLive ops (ops.Id e.Value) l = some e := by
  cases hl : lastLive ops (ops.Id e.Value) l with
  | none => exact absurd rfl (lastLive_none ops _ l hl e he hlive)
  | some x =>
    obtain ⟨hx, hxlive, hxid⟩ := lastLive_some ops _ x l hl
    have h1 : x ∈ live ops l := (mem_live ops l x).mpr ⟨hx, hxlive⟩
    have h2 : e ∈ live ops l := (mem_live ops l e).mpr ⟨he, hlive⟩
    have : x = e := List.inj_on_of_nodup_map hids h1 h2 hxid
    rw [this]

theorem mapSet_of_not_mem (m : List (Int × String)) (k : Int) (v : String)
    (hk : k ∉ m.map Prod.fst) : mapSet m k v = (k, v) :: m := by
  unfold mapSet
  congr 1
  apply List.filter_eq_self.mpr
  intro p hp
  simp only [ne_eq, decide_eq_true_eq]
  intro hpk
  exact hk (List.mem_map.mpr ⟨p, hp, hpk⟩)

theorem listScan_length {τ : Type} (ops : TimerOps τ) :
    ∀ (l : List (Element τ)) (temp : List (Int × String)),
      (ids ops (live ops l) ++ temp.map Prod.fst).Nodup →
      (listScan ops l temp).1.length = temp.length + (live ops l).length
  | [], _, _ => by simp [listScan, live]
  | e :: rest, temp, h => by
    unfold listScan
    by_cases hd : ops.IsDestroy e.Value = true
    · have h' : (ids ops (live ops rest) ++ temp.map Prod.fst).Nodup := by
        simpa [live, hd] using h
      simp only [hd, if_true]
      rw [listScan_length ops rest temp h']
      simp [live, hd]
    · simp only [Bool.not_eq_true] at hd
      have h' : (ops.Id e.Value :: (ids ops (live ops rest) ++ temp.map Prod.fst)).Nodup := by
        simpa [live, hd, ids] using h
      obtain ⟨hnot, hrest⟩ := List.nodup_cons.mp h'
      have hk : ops.Id e.Value ∉ temp.map Prod.fst := fun hm =>
        hnot (List.mem_append_right _ hm)
      have hnext : (ids ops (live ops rest)
          ++ ((ops.Id e.Value, ops.String_ e.Value) :: temp).map Prod.fst).Nodup := by
        rw [List.map_cons]
        exact (List.nodup_middle.mpr h')
      simp only [hd, if_false, Bool.false_eq_true]
      rw [mapSet_of_not_mem temp _ _ hk, listScan_length ops rest _ hnext]
      simp [live, hd]
      omega

theorem List__eq {τ : Type} (ops : TimerOps τ) (c : GrapeScheduler τ)
    (hfree : c.listLocker = false) :
    List_ ops c
      = .ret ⟨(listScan ops c.timerContiner []).1, c,
          (live ops c.timerContiner).map (fun e => ⟨.String_, e.key⟩)⟩ := by
  simp only [List_, hfree, Bool.false_eq_true, if_false, listScan_calls]
  rw [unlock_eq_self c hfree]

/-! ## Claim on List -/

/-- C12: `List` returns a map and leaves the scheduler as it was.  The keys of the map
are exactly the ids carried by non-destroyed entries, each key once; every key maps to
the `String()` rendering of a non-destroyed entry with that id; and when the ids of
the non-destroyed entries are pairwise distinct, the map has as many keys as there
are non-destroyed entries and maps the id of each of them to its rendering. -/
theorem List_maps_live_ids_to_renderings {τ : Type} (ops : TimerOps τ)
    (c : GrapeScheduler τ) (hfree : c.listLocker = false) :
    ∃ m, List_ ops c
        = .ret ⟨m, c, (live ops c.timerContiner).map (fun e => ⟨.String_, e.key⟩)⟩ ∧
      (m.map Prod.fst).Nodup ∧
      (∀ k, k ∈ m.map Prod.fst ↔
        ∃ e ∈ c.timerContiner, ops.IsDestroy e.Value = false ∧ ops.Id e.Value = k) ∧
      (∀ k v, mapGet m k = some v →
        ∃ e ∈ c.timerContiner, ops.IsDestroy e.Value = false ∧ ops.Id e.Value = k ∧
          v = ops.String_ e.Value) ∧
      ((ids ops (live ops c.timerContiner)).Nodup →
        m.length = (live ops c.timerContiner).length ∧
        ∀ e ∈ c.timerContiner, ops.IsDestroy e.Value = false →
          mapGet m (ops.Id e.Value) = some (ops.String_ e.Value)) := by
  have hval : ∀ k v, mapGet (listScan ops c.timerContiner []).1 k = some v →
      ∃ e ∈ c.timerContiner, ops.IsDestroy e.Value = false ∧ ops.Id e.Value = k ∧
        v = ops.String_ e.Value := by
    intro k v hkv
    rw [listScan_get ops k c.timerContiner []] at hkv
    cases hl : lastLive ops k c.timerContiner with
    | none => rw [hl] at hkv; simp [mapGet] at hkv
    | some x =>
      rw [hl] at hkv
      simp only [Option.some.injEq] at hkv
      obtain ⟨hx, hxlive, hxid⟩ := lastLive_some ops k x _ hl
      exact ⟨x, hx, hxlive, hxid, hkv.symm⟩
  refine ⟨(listScan ops c.timerContiner []).1, List__eq ops c hfree,
    listScan_keys_nodup ops _ [] (by simp), ?_, hval, ?_⟩
  · intro k
    rw [mem_keys_iff_mapGet]
    constructor
    · rintro ⟨v, hv⟩
      obtain ⟨e, he, hlive, hid, _⟩ := hval k v hv
      exact ⟨e, he, hlive, hid⟩
    · rintro ⟨e, he, hlive, hid⟩
      rw [listScan_get ops k c.timerContiner []]
      cases hl : lastLive ops k c.timerContiner with
      | none => exact absurd hid (lastLive_none ops k _ hl e he hlive)
      | some x => exact ⟨_, rfl⟩
  · intro hids
    constructor
    · have := listScan_length ops c.timerContiner [] (by simpa using hids)
      simpa using this
    · intro e he hlive
      rw [listScan_get ops _ c.timerContiner [], lastLive_of_distinct ops _ hids e he hlive]

/-- C12 on a registry with a destroyed entry and two live entries that share the id
7: the map has the single key 7. -/
theorem List_maps_live_ids_to_renderings_witness :
    ∃ m, List_ demoOps
        (demoScheduler [⟨0, ⟨7, -1, false, 0⟩⟩, ⟨1, ⟨8, 0, true, 1⟩⟩, ⟨2, ⟨7, 3, false, 0⟩⟩] 1002)
        = .ret ⟨m,
            demoScheduler [⟨0, ⟨7, -1, false, 0⟩⟩, ⟨1, ⟨8, 0, true, 1⟩⟩, ⟨2, ⟨7, 3, false, 0⟩⟩] 1002,
            [⟨.String_, 0⟩, ⟨.String_, 2⟩]⟩ ∧
      (m.map Prod.fst).Nodup ∧ (7 ∈ m.map Prod.fst) ∧ (8 ∉ m.map Prod.fst) := by
  obtain ⟨m, hm, hnd, hkeys, _⟩ := List_maps_live_ids_to_renderings demoOps
    (demoScheduler [⟨0, ⟨7, -1, false, 0⟩⟩, ⟨1, ⟨8, 0, true, 1⟩⟩, ⟨2, ⟨7, 3, false, 0⟩⟩] 1002)
    rfl
  refine ⟨m, hm, hnd, (hkeys 7).mpr ⟨⟨0, ⟨7, -1, false, 0⟩⟩, by decide, rfl, rfl⟩, ?_⟩
  intro h8
  obtain ⟨e, he, hlive, hid⟩ := (hkeys 8).mp h8
  revert hlive hid
  revert e
  decide

/-! ## Lemmas on the lookups that find an entry -/

theorem exists_first_live {τ : Type} (ops : TimerOps τ) (id : Int) :
    ∀ l : List (Element τ),
      (∃ e ∈ l, ops.IsDestroy e.Value = false ∧ ops.Id e.Value = id) →
      ∃ pre e post, l = pre ++ e :: post ∧
        (∀ x ∈ pre, ops.IsDestroy x.Value = false → ops.Id x.Value ≠ id) ∧
        ops.IsDestroy e.Value = false ∧ ops.Id e.Value = id
  | [], h => by
    obtain ⟨e, he, _⟩ := h
    simp at he
  | x :: rest, h => by
    by_cases hx : ops.IsDestroy x.Value = false ∧ ops.Id x.Value = id
    · exact ⟨[], x, rest, rfl, by simp, hx.1, hx.2⟩
    · have hrest : ∃ e ∈ rest, ops.IsDestroy e.Value = false ∧ ops.Id e.Value = id := by
        obtain ⟨e, he, hlive, hid⟩ := h
        rcases List.mem_cons.mp he with rfl | hmem
        · exact absurd ⟨hlive, hid⟩ hx
        · exact ⟨e, hmem, hlive, hid⟩
      obtain ⟨pre, e, post, hsplit, hpre, hlive, hid⟩ := exists_first_live ops id rest hrest
      refine ⟨x :: pre, e, post, by rw [hsplit]; rfl, ?_, hlive, hid⟩
      intro y hy hylive hyid
      rcases List.mem_cons.mp hy with rfl | hmem
      · exact hx ⟨hylive, hyid⟩
      · exact hpre y hmem hylive hyid

theorem stringScan_first {τ : Type} (ops : TimerOps τ) (id : Int) (e : Element τ)
    (post : List (Element τ)) (hlive : ops.IsDestroy e.Value = false)
    (hid : ops.Id e.Value = id) :
    ∀ pre : List (Element τ),
      (∀ x ∈ pre, ops.IsDestroy x.Value = false → ops.Id x.Value ≠ id) →
      stringScan ops id (pre ++ e :: post) = (ops.String_ e.Value, [⟨.String_, e.key⟩])
  | [], _ => by simp [stringScan, hlive, hid]
  | x :: pre, h => by
    have ih := stringScan_first ops id e post hlive hid pre
      (fun y hy => h y (List.mem_cons_of_mem _ hy))
    have hx := h x (List.mem_cons_self _ _)
    rw [List.cons_append]
    unfold stringScan
    by_cases hd : ops.IsDestroy x.Value = true
    · simp [hd, ih]
    · simp only [Bool.not_eq_true] at hd
      simp [hd, hx hd, ih]

theorem formatScan_first {τ : Type} (ops : TimerOps τ) (id : Int) (layout : String)
    (e : Element τ) (post : List (Element τ)) (hlive : ops.IsDestroy e.Value = false)
    (hid : ops.Id e.Value = id) :
    ∀ pre : List (Element τ),
      (∀ x ∈ pre, ops.IsDestroy x.Value = false → ops.Id x.Value ≠ id) →
      formatScan ops id layout (pre ++ e :: post)
        = (ops.Format e.Value layout, [⟨.Format, e.key⟩])
  | [], _ => by simp [formatScan, hlive, hid]
  | x :: pre, h => by
    have ih := formatScan_first ops id layout e post hlive hid pre
      (fun y hy => h y (List.mem_cons_of_mem _ hy))
    have hx := h x (List.mem_cons_self _ _)
    rw [List.cons_append]
    unfold formatScan
    by_cases hd : ops.IsDestroy x.Value = true
    · simp [hd, ih]
    · simp only [Bool.not_eq_true] at hd
      simp [hd, hx hd, ih]

theorem jsonScan_first {τ : Type} (ops : TimerOps τ) (id : Int) (e : Element τ)
    (post : List (Element τ)) (hlive : ops.IsDestroy e.Value = false)
    (hid : ops.Id e.Value = id) :
    ∀ pre : List (Element τ),
      (∀ x ∈ pre, ops.IsDestroy x.Value = false → ops.Id x.Value ≠ id) →
      jsonScan ops id (pre ++ e :: post) = (ops.toJson e.Value, [⟨.toJson, e.key⟩])
  | [], _ => by simp [jsonScan, hlive, hid]
  | x :: pre, h => by
    have ih := jsonScan_first ops id e post hlive hid pre
      (fun y hy => h y (List.mem_cons_of_mem _ hy))
    have hx := h x (List.mem_cons_self _ _)
    rw [List.cons_append]
    unfold jsonScan
    by_cases hd : ops.IsDestroy x.Value = true
    · simp [hd, ih]
    · simp only [Bool.not_eq_true] at hd
      simp [hd, hx hd, ih]

theorem String__eq {τ : Type} (ops : TimerOps τ) (c : GrapeScheduler τ) (id : Int)
    (hfree : c.listLocker = false) :
    String_ ops c id
      = .ret ⟨(stringScan ops id c.timerContiner).1, c, (stringScan ops id c.timerContiner).2⟩ := by
  simp only [String_, hfree, Bool.false_eq_true, if_false]
  rw [unlock_eq_self c hfree]

theorem Format_eq {τ : Type} (ops : TimerOps τ) (c : GrapeScheduler τ) (id : Int)
    (layout : String) (hfree : c.listLocker = false) :
    Format ops c id layout
      = .ret ⟨(formatScan ops id layout c.timerContiner).1, c,
          (formatScan ops id layout c.timerContiner).2⟩ := by
  simp only [Format, hfree, Bool.false_eq_true, if_false]
  rw [unlock_eq_self c hfree]

theorem ToJson_eq {τ : Type} (ops : TimerOps τ) (c : GrapeScheduler τ) (id : Int)
    (hfree : c.listLocker = false) :
    ToJson ops c id
      = .ret ⟨(jsonScan ops id c.timerContiner).1, c, (jsonScan ops id c.timerContiner).2⟩ := by
  simp only [ToJson, hfree, Bool.false_eq_true, if_false]
  rw [unlock_eq_self c hfree]

theorem SaveAll_eq {τ : Type} (ops : TimerOps τ) (c : GrapeScheduler τ)
    (hfree : c.listLocker = false) :
    SaveAll ops c
      = .ret ⟨(saveScan ops c.timerContiner (some [])).1, c,
          (saveScan ops c.timerContiner (some [])).2⟩ := by
  simp only [SaveAll, hfree, Bool.false_eq_true, if_false]
  rw [unlock_eq_self c hfree]

/-! ## Claim on the lookups that find an entry -/

/-- C15: when at least one non-destroyed entry has the id, the registry splits at the
first such entry in traversal order, the entries before it being destroyed or
carrying another id, and `String(id)`, `Format(id, layout)` and `ToJson(id)` return
the `String()`, `Format(layout)` and `toJson()` rendering of that entry, calling the
method on it alone.  When the ids of the non-destroyed entries are pairwise distinct,
the map `List()` returns holds the same rendering under the id. -/
theorem lookups_render_first_live_match {τ : Type} (ops : TimerOps τ) (c : GrapeScheduler τ)
    (id : Int) (hfree : c.listLocker = false)
    (hex : ∃ e ∈ c.timerContiner, ops.IsDestroy e.Value = false ∧ ops.Id e.Value = id) :
    ∃ pre e post, c.timerContiner = pre ++ e :: post ∧
      (∀ x ∈ pre, ops.IsDestroy x.Value = false → ops.Id x.Value ≠ id) ∧
      ops.IsDestroy e.Value = false ∧ ops.Id e.Value = id ∧
      String_ ops c id = .ret ⟨ops.String_ e.Value, c, [⟨.String_, e.key⟩]⟩ ∧
      (∀ layout, Format ops c id layout
        = .ret ⟨ops.Format e.Value layout, c, [⟨.Format, e.key⟩]⟩) ∧
      ToJson ops c id = .ret ⟨ops.toJson e.Value, c, [⟨.toJson, e.key⟩]⟩ ∧
      ((ids ops (live ops c.timerContiner)).Nodup →
        ∃ m calls, List_ ops c = .ret ⟨m, c, calls⟩ ∧
          mapGet m id = some (ops.String_ e.Value)) := by
  obtain ⟨pre, e, post, hsplit, hpre, hlive, hid⟩ := exists_first_live ops id _ hex
  refine ⟨pre, e, post, hsplit, hpre, hlive, hid, ?_, ?_, ?_, ?_⟩
  · rw [String__eq ops c id hfree, hsplit, stringScan_first ops id e post hlive hid pre hpre]
  · intro layout
    rw [Format_eq ops c id layout hfree, hsplit,
      formatScan_first ops id layout e post hlive hid pre hpre]
  · rw [ToJson_eq ops c id hfree, hsplit, jsonScan_first ops id e post hlive hid pre hpre]
  · intro hids
    have he : e ∈ c.timerContiner := by
      rw [hsplit]
      exact List.mem_append_right _ (List.mem_cons_self _ _)
    refine ⟨_, _, List__eq ops c hfree, ?_⟩
    rw [listScan_get ops id c.timerContiner [], ← hid,
      lastLive_of_distinct ops _ hids e he hlive]

/-- C15 on a registry in which a destroyed entry with the id 7 precedes the live one. -/
theorem lookups_render_first_live_match_witness :
    String_ demoOps
        (demoScheduler [⟨0, ⟨7, 0, true, 1⟩⟩, ⟨1, ⟨8, -1, false, 0⟩⟩, ⟨2, ⟨7, -1, false, 0⟩⟩]
          1002) 7
      = .ret ⟨"pending",
          demoScheduler [⟨0, ⟨7, 0, true, 1⟩⟩, ⟨1, ⟨8, -1, false, 0⟩⟩, ⟨2, ⟨7, -1, false, 0⟩⟩]
            1002,
          [⟨.String_, 2⟩]⟩ := by
  obtain ⟨pre, e, post, hsplit, hpre, hlive, hid, hstr, _⟩ :=
    lookups_render_first_live_match demoOps
      (demoScheduler [⟨0, ⟨7, 0, true, 1⟩⟩, ⟨1, ⟨8, -1, false, 0⟩⟩, ⟨2, ⟨7, -1, false, 0⟩⟩]
        1002) 7 rfl ⟨⟨2, ⟨7, -1, false, 0⟩⟩, by decide, rfl, rfl⟩
  rw [String__eq demoOps _ 7 rfl] at hstr ⊢
  rfl

/-! ## Lemmas on the identifiers in the registry -/

theorem stopScan_ids {τ : Type} (ops : TimerOps τ) (id : Int)
    (hStop : ∀ t, ops.Id (ops.Stop t) = ops.Id t) :
    ∀ l : List (Element τ), ids ops (stopScan ops id l).1 = ids ops l
  | [] => rfl
  | e :: rest => by
    have ih := stopScan_ids ops id hStop rest
    unfold stopScan
    unfold ids at ih ⊢
    by_cases hd : ops.IsDestroy e.Value = true
    · simp [hd, ih]
    · by_cases hid : ops.Id e.Value = id
      · simp [hd, hid, hStop]
      · simp [hd, hid, ih]

theorem passBySpec_ids_sublist {τ : Type} (ops : TimerOps τ) (dbg : Bool)
    (hExec : ∀ t, ops.Id (ops.Execute t).1 = ops.Id t) :
    ∀ l : List (Element τ),
      (ids ops (passBySpec ops dbg l).timerContiner).Sublist (ids ops l)
  | [] => by simp [passBySpec, ids]
  | e :: rest => by
    have ih := passBySpec_ids_sublist ops dbg hExec rest
    unfold ids at ih ⊢
    unfold passBySpec
    cases hx : (ops.Execute e.Value).2 with
    | some msg => simp [hExec]
    | none =>
      by_cases hd : ops.IsDestroy (ops.Execute e.Value).1 = true
      · simp only [hd, if_true, List.map_cons]
        exact List.Sublist.cons _ ih
      · simp only [hd, if_false, List.map_cons, hExec, Bool.false_eq_true]
        exact List.Sublist.cons₂ _ ih

/-- The registry a pulse leaves is the one of the specification's pass, however the
pulse stops. -/
theorem procSchedulerTick_registry {τ : Type} (ops : TimerOps τ) (dbg : Bool)
    (c : GrapeScheduler τ) (hfree : c.listLocker = false)
    (hnd : (keys c.timerContiner).Nodup) :
    (procSchedulerTick ops dbg c).sched.timerContiner
        = (passBySpec ops dbg c.timerContiner).timerContiner ∧
      (procSchedulerTick ops dbg c).calls = (passBySpec ops dbg c.timerContiner).calls ∧
      (procSchedulerTick ops dbg c).status = (passBySpec ops dbg c.timerContiner).status := by
  have hloop := tickLoop_eq_passBySpec ops dbg c.timerContiner [] c.timerContiner.length []
    (if dbg then [LogLine.tickOnce] else []) (by simpa using hnd) (le_refl _)
  simp only [List.nil_append] at hloop
  simp only [procSchedulerTick, hfree, Bool.false_eq_true, if_false, hloop]
  cases (passBySpec ops dbg c.timerContiner).status <;> simp

theorem InitGrapeScheduler_eq {τ : Type} (t : Int) (ars : Bool) (numCPU : Nat)
    (w : World τ) :
    InitGrapeScheduler t ars numCPU w
      = .ret { (if ars then { w with GOMAXPROCS := numCPU } else w) with
          GScheduler := some
            { done := .isOpen, timerContiner := [], autoId := 1000,
              schedulerTimer :=
                { d := if t ≤ Millisecond * 100 then Millisecond * 100 else t,
                  stopped := false },
              listLocker := false } } := by
  have hd : ¬ ((if t ≤ Millisecond * 100 then Millisecond * 100 else t) ≤ 0) := by
    simp only [Millisecond]
    split <;> omega
  unfold InitGrapeScheduler NewTicker
  simp only [hd, if_false]

/-! ## Claim on the distinctness of the identifiers -/

/-- C13: with timer methods `Stop` and `Execute` that leave the `Id` of a timer as it
is, every operation of the file keeps the ids in the registry pairwise distinct: a
pulse (however it stops), `StopTimer`, `List`, `String`, `Format`, `ToJson`, `SaveAll`,
`SetGuidSeed` and `PeekNextId`; and the registry `InitGrapeScheduler` creates has
pairwise distinct ids. -/
theorem registry_ids_stay_distinct {τ : Type} (ops : TimerOps τ) (c : GrapeScheduler τ)
    (hStop : ∀ t, ops.Id (ops.Stop t) = ops.Id t)
    (hExec : ∀ t, ops.Id (ops.Execute t).1 = ops.Id t)
    (hfree : c.listLocker = false) (hnd : (keys c.timerContiner).Nodup)
    (hids : (ids ops c.timerContiner).Nodup) :
    (∀ dbg, (ids ops (procSchedulerTick ops dbg c).sched.timerContiner).Nodup) ∧
      (∀ id, ∃ r, StopTimer ops c id = .ret r ∧ (ids ops r.sched.timerContiner).Nodup) ∧
      (∃ q, List_ ops c = .ret q ∧ (ids ops q.sched.timerContiner).Nodup) ∧
      (∀ id, ∃ q, String_ ops c id = .ret q ∧ (ids ops q.sched.timerContiner).Nodup) ∧
      (∀ id layout, ∃ q, Format ops c id layout = .ret q ∧
        (ids ops q.sched.timerContiner).Nodup) ∧
      (∀ id, ∃ q, ToJson ops c id = .ret q ∧ (ids ops q.sched.timerContiner).Nodup) ∧
      (∃ q, SaveAll ops c = .ret q ∧ (ids ops q.sched.timerContiner).Nodup) ∧
      (∀ (w : World τ) (seed : Int), w.GScheduler = some c →
        ∃ c', (SetGuidSeed seed w).2.GScheduler = some c' ∧
          (ids ops c'.timerContiner).Nodup) ∧
      (∀ w : World τ, w.GScheduler = some c →
        ∃ v w' c', PeekNextId w = .ret (v, w') ∧ w'.GScheduler = some c' ∧
          (ids ops c'.timerContiner).Nodup) ∧
      (∀ (t : Int) (ars : Bool) (numCPU : Nat) (w : World τ),
        ∃ w' c0, InitGrapeScheduler t ars numCPU w = .ret w' ∧ w'.GScheduler = some c0 ∧
          (ids ops c0.timerContiner).Nodup) := by
  refine ⟨?_, ?_, ?_, ?_, ?_, ?_, ?_, ?_, ?_, ?_⟩
  · intro dbg
    rw [(procSchedulerTick_registry ops dbg c hfree hnd).1]
    exact List.Nodup.sublist (passBySpec_ids_sublist ops dbg hExec _) hids
  · intro id
    refine ⟨⟨(), { c with timerContiner := (stopScan ops id c.timerContiner).1 },
      (stopScan ops id c.timerContiner).2⟩, ?_, ?_⟩
    · cases c
      simp_all [StopTimer]
    · show (ids ops (stopScan ops id c.timerContiner).1).Nodup
      rw [stopScan_ids ops id hStop]
      exact hids
  · exact ⟨_, List__eq ops c hfree, hids⟩
  · intro id
    exact ⟨_, String__eq ops c id hfree, hids⟩
  · intro id layout
    exact ⟨_, Format_eq ops c id layout hfree, hids⟩
  · intro id
    exact ⟨_, ToJson_eq ops c id hfree, hids⟩
  · exact ⟨_, SaveAll_eq ops c hfree, hids⟩
  · intro w seed hw
    refine ⟨{ c with autoId := seed }, ?_, hids⟩
    simp [SetGuidSeed, hw]
  · intro w hw
    refine ⟨wrapInt64 (c.autoId + 1), w, c, ?_, hw, hids⟩
    simp [PeekNextId, hw]
  · intro t ars numCPU w
    refine ⟨_, _, InitGrapeScheduler_eq t ars numCPU w, rfl, ?_⟩
    simp [ids]

theorem demoExecute_keeps_Id (t : DemoTimer) :
    demoOps.Id (demoOps.Execute t).1 = demoOps.Id t := by
  simp only [demoOps, demoExecute]
  split_ifs <;> rfl

/-- C13 on a registry of four sample timers with the ids 1001 to 1004. -/
theorem registry_ids_stay_distinct_witness :
    (ids demoOps (procSchedulerTick demoOps true
        (demoScheduler (demoRegistry 4) 1004)).sched.timerContiner).Nodup ∧
      ∃ r, StopTimer demoOps (demoScheduler (demoRegistry 4) 1004) 1002 = .ret r ∧
        (ids demoOps r.sched.timerContiner).Nodup := by
  obtain ⟨hpulse, hstop, _⟩ := registry_ids_stay_distinct demoOps
    (demoScheduler (demoRegistry 4) 1004) (fun _ => rfl) demoExecute_keeps_Id
    rfl (by decide) (by decide)
  exact ⟨hpulse true, hstop 1002⟩

theorem NextId_default_eq {τ : Type} (w : World τ) (c : GrapeScheduler τ)
    (hinit : w.GScheduler = some c) (hgen : w.createGuid = Generator.dflt) :
    NextId w
      = .ret (wrapInt64 (c.autoId + 1),
          { w with GScheduler := some { c with autoId := wrapInt64 (c.autoId + 1) } }) := by
  simp only [NextId, hgen, defaultCreateGuid, hinit]

/-! ## Claim on the state after initialization -/

/-- C17: for every interval and flag and whatever the state before, immediately after
`InitGrapeScheduler` the singleton exists with an empty registry, a free mutex and
the counter 1000: `List()` and `SaveAll()` are empty, `PeekNextId()` returns 1001, and
the first allocation returns 1001 when the generator is the default one. -/
theorem InitGrapeScheduler_fresh_state {τ : Type} (ops : TimerOps τ) (t : Int) (ars : Bool)
    (numCPU : Nat) (w : World τ) :
    ∃ w' c, InitGrapeScheduler t ars numCPU w = .ret w' ∧ w'.GScheduler = some c ∧
      c.timerContiner = [] ∧ c.autoId = 1000 ∧ c.listLocker = false ∧
      w'.createGuid = w.createGuid ∧
      List_ ops c = .ret ⟨[], c, []⟩ ∧
      SaveAll ops c = .ret ⟨some [], c, []⟩ ∧
      PeekNextId w' = .ret (1001, w') ∧
      (w.createGuid = Generator.dflt → ∃ w'', NextId w' = .ret (1001, w'')) := by
  refine ⟨_, _, InitGrapeScheduler_eq t ars numCPU w, rfl, rfl, rfl, rfl, ?_, ?_, ?_, ?_, ?_⟩
  · cases ars <;> rfl
  · rw [List__eq ops _ rfl]
    rfl
  · rw [SaveAll_eq ops _ rfl]
    rfl
  · simp only [PeekNextId]
    rfl
  · intro hgen
    have hgen' : ({ (if ars then { w with GOMAXPROCS := numCPU } else w) with
        GScheduler := some
          { done := Chan.isOpen, timerContiner := ([] : List (Element τ)), autoId := 1000,
            schedulerTimer :=
              { d := if t ≤ Millisecond * 100 then Millisecond * 100 else t,
                stopped := false },
            listLocker := false } } : World τ).createGuid = Generator.dflt := by
      cases ars <;> exact hgen
    have h1001 : wrapInt64 ((1000 : Int) + 1) = 1001 := by decide
    have h := NextId_default_eq _
      ({ done := Chan.isOpen, timerContiner := ([] : List (Element τ)), autoId := 1000,
         schedulerTimer :=
           { d := if t ≤ Millisecond * 100 then Millisecond * 100 else t, stopped := false },
         listLocker := false } : GrapeScheduler τ) rfl hgen'
    simp only [h1001] at h
    exact ⟨_, h⟩

/-! ## Claim on the replaced generator -/

theorem NextIds_custom {τ : Type} (fn : Nat → Int) :
    ∀ (n : Nat) (w : World τ), w.createGuid = Generator.custom fn →
      NextIds n w
        = .ret ((List.range n).map (fun i => fn (w.genCalls + i)),
            { w with genCalls := w.genCalls + n })
  | 0, w, _ => by
    cases w
    rfl
  | n + 1, w, hgen => by
    have hstep : NextId w = .ret (fn w.genCalls, { w with genCalls := w.genCalls + 1 }) := by
      simp [NextId, hgen]
    have ih := NextIds_custom fn n { w with genCalls := w.genCalls + 1 } hgen
    simp only [NextIds, hstep, ih, List.range_succ_eq_map, List.map_cons, List.map_map]
    congr 2
    · congr 1
      apply List.map_congr_left
      intro i _
      simp only [Function.comp]
      congr 1
      omega
    · congr 1
      omega

/-- C18: `SetCreateGUID(fn)` succeeds on every state, initialized or not, and changes
neither the scheduler (so neither the counter nor the registry) nor anything but the
generator; afterwards every allocation returns exactly the value `fn` returns for
that call, and the allocations leave the scheduler and its counter as they were. -/
theorem SetCreateGUID_replaces_generator {τ : Type} (fn : Nat → Int) (w : World τ) :
    (SetCreateGUID fn w).GScheduler = w.GScheduler ∧
      (SetCreateGUID fn w).createGuid = Generator.custom fn ∧
      (SetCreateGUID fn w).CDebugMode = w.CDebugMode ∧
      (SetCreateGUID fn w).GOMAXPROCS = w.GOMAXPROCS ∧
      ∀ n, ∃ w', NextIds n (SetCreateGUID fn w) = .ret ((List.range n).map fn, w') ∧
        w'.GScheduler = w.GScheduler ∧ w'.createGuid = Generator.custom fn := by
  refine ⟨rfl, rfl, rfl, rfl, ?_⟩
  intro n
  refine ⟨{ SetCreateGUID fn w with genCalls := (SetCreateGUID fn w).genCalls + n },
    ?_, rfl, rfl⟩
  rw [NextIds_custom fn n (SetCreateGUID fn w) rfl]
  simp [SetCreateGUID]

/-! ## Claim on the read-only queries -/

/-- C19: on a scheduler whose mutex is free, `List`, `String`, `Format`, `ToJson` and
`SaveAll` return and leave the scheduler exactly as it was (the registry with its
entries, their order and their states, the counter and every other field), and
`PeekNextId` returns and leaves the whole package state as it was; so each of them,
repeated on the state it left, returns the same result. -/
theorem queries_are_read_only {τ : Type} (ops : TimerOps τ) (c : GrapeScheduler τ)
    (hfree : c.listLocker = false) :
    (∃ q, List_ ops c = .ret q ∧ q.sched = c ∧ List_ ops q.sched = .ret q) ∧
      (∀ id, ∃ q, String_ ops c id = .ret q ∧ q.sched = c ∧
        String_ ops q.sched id = .ret q) ∧
      (∀ id layout, ∃ q, Format ops c id layout = .ret q ∧ q.sched = c ∧
        Format ops q.sched id layout = .ret q) ∧
      (∀ id, ∃ q, ToJson ops c id = .ret q ∧ q.sched = c ∧
        ToJson ops q.sched id = .ret q) ∧
      (∃ q, SaveAll ops c = .ret q ∧ q.sched = c ∧ SaveAll ops q.sched = .ret q) ∧
      (∀ w : World τ, w.GScheduler = some c →
        ∃ v, PeekNextId w = .ret (v, w) ∧
          ∀ w1, PeekNextId w = .ret (v, w1) → w1 = w ∧ PeekNextId w1 = .ret (v, w1)) := by
  refine ⟨?_, ?_, ?_, ?_, ?_, ?_⟩
  · exact ⟨_, List__eq ops c hfree, rfl, List__eq ops c hfree⟩
  · intro id
    exact ⟨_, String__eq ops c id hfree, rfl, String__eq ops c id hfree⟩
  · intro id layout
    exact ⟨_, Format_eq ops c id layout hfree, rfl, Format_eq ops c id layout hfree⟩
  · intro id
    exact ⟨_, ToJson_eq ops c id hfree, rfl, ToJson_eq ops c id hfree⟩
  · exact ⟨_, SaveAll_eq ops c hfree, rfl, SaveAll_eq ops c hfree⟩
  · intro w hw
    have hpeek : PeekNextId w = .ret (wrapInt64 (c.autoId + 1), w) := by
      simp [PeekNextId, hw]
    refine ⟨_, hpeek, ?_⟩
    intro w1 h1
    rw [hpeek] at h1
    injection h1 with h1
    injection h1 with _ h1
    subst h1
    exact ⟨rfl, hpeek⟩

/-- C19 on a registry of four sample timers. -/
theorem queries_are_read_only_witness :
    ∃ q, SaveAll demoOps (demoScheduler (demoRegistry 4) 1004) = .ret q ∧
      q.sched = demoScheduler (demoRegistry 4) 1004 ∧
      SaveAll demoOps q.sched = .ret q :=
  (queries_are_read_only demoOps (demoScheduler (demoRegistry 4) 1004) rfl).2.2.2.2.1

/-! ## Lemmas on the fault boundary -/

theorem recoveredInPulse_exec {τ : Type} (run : τ → τ × Option String) :
    ∀ (suf pre : List (Element τ)), (keys (pre ++ suf)).Nodup →
      recoveredInPulse run (pre ++ suf) (suf.map (fun e => ⟨.Execute, e.key⟩))
        = faultsBySpec run suf
  | [], _, _ => rfl
  | e :: rest, pre, hnd => by
    have hnd' : (keys pre ++ e.key :: keys rest).Nodup := by
      simpa [keys] using hnd
    have hpre : e.key ∉ keys pre := by
      intro hmem
      exact (List.nodup_append.mp hnd').2.2 hmem (List.mem_cons_self _ _)
    have ih := recoveredInPulse_exec run rest (pre ++ [e]) (by simpa [keys] using hnd)
    simp only [List.append_assoc, List.singleton_append] at ih
    simp only [List.map_cons, recoveredInPulse, faultsBySpec,
      valueOf_append_cons e rest pre hpre, ih]

theorem faultsBySpec_of_no_fault {τ : Type} (run : τ → τ × Option String) :
    ∀ l : List (Element τ), (∀ x ∈ l, (run x.Value).2 = none) → faultsBySpec run l = []
  | [], _ => rfl
  | e :: rest, h => by
    have ih := faultsBySpec_of_no_fault run rest (fun x hx => h x (List.mem_cons_of_mem _ hx))
    simp [faultsBySpec, recoveredBySpec, h e (List.mem_cons_self _ _), ih]

theorem faultsBySpec_append {τ : Type} (run : τ → τ × Option String) :
    ∀ a b : List (Element τ), faultsBySpec run (a ++ b) = faultsBySpec run a ++ faultsBySpec run b
  | [], _ => rfl
  | e :: rest, b => by
    simp [faultsBySpec, faultsBySpec_append run rest b]

theorem count_exec_eq_one {τ : Type} (l : List (Element τ)) (hnd : (keys l).Nodup)
    (e : Element τ) (he : e ∈ l) :
    (l.map (fun x => (⟨.Execute, x.key⟩ : Call))).count ⟨.Execute, e.key⟩ = 1 := by
  have hcalls : l.map (fun x => (⟨.Execute, x.key⟩ : Call))
      = (keys l).map (fun k => (⟨.Execute, k⟩ : Call)) := by
    simp [keys]
  have hinj : Function.Injective (fun k : Nat => (⟨.Execute, k⟩ : Call)) := by
    intro a b hab
    injection hab
  rw [hcalls]
  apply List.count_eq_one_of_mem (hnd.map hinj)
  exact List.mem_map.mpr ⟨e.key, List.mem_map.mpr ⟨e, he, rfl⟩, rfl⟩

/-- The driver has no fault boundary of its own: when a panic leaves the `Execute`
call of the first entry, the pulse stops there with the mutex still held and the
later entries not executed. -/
theorem procSchedulerTick_escaping_panic {τ : Type} (ops : TimerOps τ) (dbg : Bool)
    (c : GrapeScheduler τ) (e : Element τ) (rest : List (Element τ)) (msg : String)
    (hfree : c.listLocker = false) (hnd : (keys c.timerContiner).Nodup)
    (hreg : c.timerContiner = e :: rest) (hpanic : (ops.Execute e.Value).2 = some msg) :
    (procSchedulerTick ops dbg c).status = .fault msg ∧
      (procSchedulerTick ops dbg c).calls = [⟨.Execute, e.key⟩] ∧
      (procSchedulerTick ops dbg c).sched.listLocker = true := by
  have hloop := tickLoop_eq_passBySpec ops dbg c.timerContiner [] c.timerContiner.length []
    (if dbg then [LogLine.tickOnce] else []) (by simpa using hnd) (le_refl _)
  simp only [List.nil_append] at hloop
  have hpass : passBySpec ops dbg c.timerContiner
      = ⟨{ e with Value := (ops.Execute e.Value).1 } :: rest, [⟨.Execute, e.key⟩], [],
          .fault msg⟩ := by
    rw [hreg]
    simp [passBySpec, hpanic]
  simp only [procSchedulerTick, hfree, Bool.false_eq_true, if_false, hloop, hpass]
  simp

/-! ## Claim on fault containment -/

/-- C14: with `Execute` behind the fault boundary of the specification, a pulse on a
free mutex over a registry of pairwise distinct elements runs to its end whatever
faults the payloads raise, and releases the mutex: every entry is executed, in
insertion order, the entries that report destroyed are purged, and `RecoverPanic`
receives the faults of the entries in traversal order.  When the payload of exactly
one entry raises a fault, the hook receives that fault exactly once, and every entry
after the faulting one is executed exactly once and, if it reports destroyed, is
purged in the same pulse. -/
theorem guarded_pulse_contains_faults {τ : Type} (ops : TimerOps τ) (dbg : Bool)
    (c : GrapeScheduler τ) (hfree : c.listLocker = false)
    (hnd : (keys c.timerContiner).Nodup) :
    (procSchedulerTick (guardedOps ops) dbg c).status = .finished ∧
      (procSchedulerTick (guardedOps ops) dbg c).sched.listLocker = false ∧
      (procSchedulerTick (guardedOps ops) dbg c).calls
        = c.timerContiner.map (fun e => ⟨.Execute, e.key⟩) ∧
      (procSchedulerTick (guardedOps ops) dbg c).sched.timerContiner
        = (c.timerContiner.filter (fun e => !ops.IsDestroy (ops.Execute e.Value).1)).map
            (fun e => { e with Value := (ops.Execute e.Value).1 }) ∧
      recoveredInPulse ops.Execute c.timerContiner
          (procSchedulerTick (guardedOps ops) dbg c).calls
        = faultsBySpec ops.Execute c.timerContiner ∧
      ∀ pre e post err, c.timerContiner = pre ++ e :: post →
        (ops.Execute e.Value).2 = some err →
        (∀ x ∈ pre, (ops.Execute x.Value).2 = none) →
        (∀ x ∈ post, (ops.Execute x.Value).2 = none) →
        recoveredInPulse ops.Execute c.timerContiner
            (procSchedulerTick (guardedOps ops) dbg c).calls = [err] ∧
        ∀ x ∈ post,
          (procSchedulerTick (guardedOps ops) dbg c).calls.count ⟨.Execute, x.key⟩ = 1 ∧
          (ops.IsDestroy (ops.Execute x.Value).1 = true →
            x.key ∉ keys (procSchedulerTick (guardedOps ops) dbg c).sched.timerContiner) := by
  obtain ⟨logs, hrun⟩ := procSchedulerTick_of_no_fault (guardedOps ops) dbg c hfree hnd
    (fun _ _ => rfl)
  have hrec : recoveredInPulse ops.Execute c.timerContiner
      (c.timerContiner.map (fun e => ⟨.Execute, e.key⟩))
        = faultsBySpec ops.Execute c.timerContiner := by
    have := recoveredInPulse_exec ops.Execute c.timerContiner [] (by simpa using hnd)
    simpa using this
  rw [hrun]
  refine ⟨rfl, hfree, rfl, rfl, hrec, ?_⟩
  intro pre e post err hsplit herr hpre hpost
  refine ⟨?_, ?_⟩
  · show recoveredInPulse ops.Execute c.timerContiner
      (c.timerContiner.map (fun e => ⟨.Execute, e.key⟩)) = [err]
    rw [hrec, hsplit, faultsBySpec_append, faultsBySpec_of_no_fault _ pre hpre]
    simp [faultsBySpec, recoveredBySpec, herr, faultsBySpec_of_no_fault _ post hpost]
  · intro x hx
    have hmem : x ∈ c.timerContiner := by
      rw [hsplit]
      exact List.mem_append_right _ (List.mem_cons_of_mem _ hx)
    refine ⟨count_exec_eq_one c.timerContiner hnd x hmem, ?_⟩
    intro hd
    exact purged_key_not_kept ops c.timerContiner hnd x hmem hd

/-- C14 on a registry of four sample timers in which the payload of the second one
raises a fault: the hook receives that fault once and all four entries are executed. -/
theorem guarded_pulse_contains_faults_witness :
    (procSchedulerTick (guardedOps faultyOps) true
        (demoScheduler (demoRegistry 4) 1004)).status = .finished ∧
      (procSchedulerTick (guardedOps faultyOps) true
        (demoScheduler (demoRegistry 4) 1004)).calls
        = [⟨.Execute, 0⟩, ⟨.Execute, 1⟩, ⟨.Execute, 2⟩, ⟨.Execute, 3⟩] ∧
      recoveredInPulse faultyOps.Execute (demoRegistry 4)
          (procSchedulerTick (guardedOps faultyOps) true
            (demoScheduler (demoRegistry 4) 1004)).calls = ["payload fault"] := by
  obtain ⟨hst, _, hcalls, _, hrec, _⟩ := guarded_pulse_contains_faults faultyOps true
    (demoScheduler (demoRegistry 4) 1004) rfl (by decide)
  refine ⟨hst, by rw [hcalls]; rfl, ?_⟩
  exact hrec.trans (by decide)

/-! ## Claim on the shutdown of the driver -/

theorem procSchedulerRun_of_not_running {τ : Type} (ops : TimerOps τ) (dbg : Bool) :
    ∀ (evs : List Received) (d : Driver τ), d.state ≠ .Running →
      procSchedulerRun ops dbg evs d = d
  | [], _, _ => rfl
  | r :: rest, d, h => by
    have hstep : procSchedulerStep ops dbg r d = d := by
      unfold procSchedulerStep
      cases hs : d.state <;> simp_all
    simp only [procSchedulerRun, hstep]
    exact procSchedulerRun_of_not_running ops dbg rest d h

theorem procSchedulerExit_stopped {τ : Type} (d : Driver τ) (pending : Option String) :
    (procSchedulerExit d pending).state = .Stopped ∧
      (procSchedulerExit d pending).pulses = d.pulses ∧
      (procSchedulerExit d pending).calls = d.calls := by
  unfold procSchedulerExit
  cases (closeChan d.sched.done).2 <;> simp

/-- C16, as stated, fails: when the signal is delivered by closing `done`, the driver
leaves its loop, its deferred `close(c.done)` panics on the closed channel, and
`schedulerTimer.Stop()` is not called. -/
theorem shutdown_by_close_faults :
    (procSchedulerStep demoOps true .done
        (startDriver (signalDone .close (demoScheduler [] 1000)))).fault
        = some "close of closed channel" ∧
      (procSchedulerStep demoOps true .done
        (startDriver (signalDone .close (demoScheduler [] 1000)))).sched.schedulerTimer.stopped
        = false := by
  decide

/-- C16, amended: a running driver whose `done` channel is open, on receiving the
shutdown signal, leaves its loop and is stopped, whichever way the signal is
delivered, and no later tick or signal changes it: it processes no further pulse and
never runs again.  When the signal is a sent value the driver ends without a fault,
closes `done` itself and stops the ticker; when `done` was closed by the caller the
deferred `close(c.done)` panics and the ticker is left as it was. -/
theorem shutdown_stops_driver {τ : Type} (ops : TimerOps τ) (dbg : Bool) (d : Driver τ)
    (hrun : d.state = .Running) (hopen : d.sched.done = .isOpen) :
    (∀ sig evs,
      (procSchedulerStep ops dbg .done { d with sched := signalDone sig d.sched }).state
          = .Stopped ∧
        (procSchedulerStep ops dbg .done { d with sched := signalDone sig d.sched }).pulses
          = d.pulses ∧
        (procSchedulerStep ops dbg .done { d with sched := signalDone sig d.sched }).calls
          = d.calls ∧
        procSchedulerRun ops dbg evs
            (procSchedulerStep ops dbg .done { d with sched := signalDone sig d.sched })
          = procSchedulerStep ops dbg .done { d with sched := signalDone sig d.sched }) ∧
      ((procSchedulerStep ops dbg .done { d with sched := signalDone .send d.sched }).fault
          = none ∧
        (procSchedulerStep ops dbg .done
            { d with sched := signalDone .send d.sched }).sched.done = .closed ∧
        (procSchedulerStep ops dbg .done
            { d with sched := signalDone .send d.sched }).sched.schedulerTimer.stopped
          = true) ∧
      ((procSchedulerStep ops dbg .done { d with sched := signalDone .close d.sched }).fault
          = some "close of closed channel" ∧
        (procSchedulerStep ops dbg .done
            { d with sched := signalDone .close d.sched }).sched.schedulerTimer.stopped
          = d.sched.schedulerTimer.stopped) := by
  have hstep : ∀ sig,
      procSchedulerStep ops dbg .done { d with sched := signalDone sig d.sched }
        = procSchedulerExit { d with sched := signalDone sig d.sched } none := by
    intro sig
    simp [procSchedulerStep, hrun]
  refine ⟨?_, ?_, ?_⟩
  · intro sig evs
    rw [hstep sig]
    obtain ⟨h1, h2, h3⟩ := procSchedulerExit_stopped { d with sched := signalDone sig d.sched } none
    refine ⟨h1, h2, h3, ?_⟩
    apply procSchedulerRun_of_not_running
    rw [h1]
    decide
  · rw [hstep]
    simp [procSchedulerExit, signalDone, hopen, closeChan]
  · rw [hstep]
    simp [procSchedulerExit, signalDone, hopen, closeChan]

/-- C16 amended, on the driver of a scheduler as `InitGrapeScheduler` creates it: after
a sent shutdown signal the driver is stopped with the ticker stopped, and two further
ticks leave it so. -/
theorem shutdown_stops_driver_witness :
    (procSchedulerStep demoOps true .done
        { startDriver (demoScheduler (demoRegistry 4) 1004) with
          sched := signalDone .send (startDriver (demoScheduler (demoRegistry 4) 1004)).sched
        }).state = .Stopped ∧
      (procSchedulerStep demoOps true .done
        { startDriver (demoScheduler (demoRegistry 4) 1004) with
          sched := signalDone .send (startDriver (demoScheduler (demoRegistry 4) 1004)).sched
        }).sched.schedulerTimer.stopped = true ∧
      procSchedulerRun demoOps true [.tick, .tick]
          (procSchedulerStep demoOps true .done
            { startDriver (demoScheduler (demoRegistry 4) 1004) with
              sched := signalDone .send
                (startDriver (demoScheduler (demoRegistry 4) 1004)).sched })
        = procSchedulerStep demoOps true .done
            { startDriver (demoScheduler (demoRegistry 4) 1004) with
              sched := signalDone .send
                (startDriver (demoScheduler (demoRegistry 4) 1004)).sched } := by
  obtain ⟨hall, hsend, _⟩ := shutdown_stops_driver demoOps true
    (startDriver (demoScheduler (demoRegistry 4) 1004)) rfl rfl
  exact ⟨(hall .send [.tick, .tick]).1, hsend.2.2, (hall .send [.tick, .tick]).2.2.2⟩

end GrapeTimer
